import Mathlib

/-!
Verification of the DuckDuckGo MCP server (`src/index.ts`): a shallow
embedding of its argument validation, rate limiting, parameter
translation, URL sanitization, snippet truncation, result rendering and
tool dispatch, with theorems settling the specification's claims.
Strings are modelled as `List Char`; JavaScript numbers as exact decimal
rationals (`JNumber`, a mantissa with a power-of-ten scale — exact for
every literal and every arithmetic step the source performs on them);
`undefined` / missing fields as `Option`.
-/

namespace DDGServer

/-- JS `String.prototype.trim` whitespace (ASCII whitespace plus NBSP /
BOM / line separators; sufficient for the inputs the claims quantify
over). -/
def jsIsWhitespace (c : Char) : Bool :=
  c = ' ' || c = '\t' || c = '\n' || c = '\r' ||
  c = Char.ofNat 11 || c = Char.ofNat 12 || c = Char.ofNat 0xA0 ||
  c = Char.ofNat 0xFEFF || c = Char.ofNat 0x2028 || c = Char.ofNat 0x2029

/-- JS `s.trim()`. -/
def jsTrim (s : List Char) : List Char :=
  ((s.dropWhile jsIsWhitespace).reverse.dropWhile jsIsWhitespace).reverse

/-- `10 ^ n` as an integer (structural, so that it reduces in the kernel). -/
def pow10 : Nat → Int
  | 0 => 1
  | n + 1 => 10 * pow10 n

/-- A JavaScript number, modelled as the exact decimal rational
`mant / 10 ^ scale`.  All numbers the source manipulates (JSON-supplied
arguments, env-derived configuration, literals) are decimal and stay in
the exact range, so this model is exact.  `NaN` is represented where it
can arise as `Option JNumber`/`Option Int` being `none`. -/
structure JNumber where
  mant : Int
  scale : Nat
deriving DecidableEq, Repr

namespace JNumber

def ofInt (k : Int) : JNumber := ⟨k, 0⟩

def ofNat (n : Nat) : JNumber := ⟨(n : Int), 0⟩

/-- JS `q <= k` for an integer constant `k`. -/
def leInt (q : JNumber) (k : Int) : Bool := q.mant ≤ k * pow10 q.scale

/-- JS `q >= k` for an integer constant `k`. -/
def geInt (q : JNumber) (k : Int) : Bool := k * pow10 q.scale ≤ q.mant

/-- JS `q - k` for an integer constant `k` (exact). -/
def subInt (q : JNumber) (k : Int) : JNumber := ⟨q.mant - k * pow10 q.scale, q.scale⟩

/-- JS `ToIntegerOrInfinity` on a finite number: truncation toward zero. -/
def trunc (q : JNumber) : Int := Int.tdiv q.mant (pow10 q.scale)

/-- The proposition `(k : Int) ≤ q` on the denoted rational. -/
def intLe (k : Int) (q : JNumber) : Prop := k * pow10 q.scale ≤ q.mant

instance (k : Int) (q : JNumber) : Decidable (intLe k q) := by
  unfold intLe; infer_instance

/-- The number denotes an integer. -/
def isInt (q : JNumber) : Prop := (pow10 q.scale) ∣ q.mant

end JNumber

/-- JS `l.slice(0, e)` for an array or string `l` and number `e`:
the end index is truncated toward zero, counted from the end when
negative, and clamped to `[0, length]`. -/
def jsSlice {α : Type} (l : List α) (e : JNumber) : List α :=
  let t := e.trunc
  let idx : Int := if t < 0 then max ((l.length : Int) + t) 0 else min t (l.length : Int)
  l.take idx.toNat

/-- `truncateSnippet` (src/index.ts): truncates text to `maxLen`,
adding an ellipsis if truncated.
```
if (text.length <= maxLen) return text;
return text.slice(0, maxLen - 3) + "...";
``` -/
def truncateSnippet (text : List Char) (maxLen : JNumber) : List Char :=
  if maxLen.geInt (text.length : Int) then text
  else jsSlice text (maxLen.subInt 3) ++ "...".toList

/-- The emoji code-point ranges matched by the `stripEmojis` regex. -/
def isEmojiChar (c : Char) : Bool :=
  (0x1F600 ≤ c.toNat && c.toNat ≤ 0x1F64F) ||
  (0x1F300 ≤ c.toNat && c.toNat ≤ 0x1F5FF) ||
  (0x1F680 ≤ c.toNat && c.toNat ≤ 0x1F6FF) ||
  (0x1F1E0 ≤ c.toNat && c.toNat ≤ 0x1F1FF) ||
  (0x2600 ≤ c.toNat && c.toNat ≤ 0x26FF) ||
  (0x2700 ≤ c.toNat && c.toNat ≤ 0x27BF)

/-- `stripEmojis` (src/index.ts): removes every character in the emoji
ranges (the source's `replace(/[...]/gu, "")`). -/
def stripEmojis (text : List Char) : List Char := text.filter (fun c => !isEmojiChar c)

/- ===========================================================================
URL model.  `cleanUrl` in the source delegates to the platform WHATWG
`URL` / `URLSearchParams` classes (`new URL(url)`, `searchParams.delete`,
`toString`).  Those are platform collaborators, not repository code, so
they are modelled here: a `scheme://host[path][?query][#fragment]`
parser and serializer restricted to the features `cleanUrl` exercises
(scheme of lowercase letters, opaque host, query split on `&` into
`key=value` pairs, `delete` removing every pair with a matched key and
nulling an emptied query, as the WHATWG update steps do).
=========================================================================== -/

/-- Splits at the first occurrence of `c`: returns the part before it
and, when `c` occurs, the part after it. -/
def splitFirst (c : Char) : List Char → List Char × Option (List Char)
  | [] => ([], none)
  | a :: rest =>
    if a = c then ([], some rest)
    else
      let p := splitFirst c rest
      (a :: p.1, p.2)

/-- Splits at every occurrence of `c` (so `n` occurrences yield `n + 1`
pieces, empty pieces included). -/
def splitAll (c : Char) : List Char → List (List Char)
  | [] => [[]]
  | a :: rest =>
    if a = c then [] :: splitAll c rest
    else
      match splitAll c rest with
      | [] => [[a]]
      | p :: ps => (a :: p) :: ps

/-- Joins pieces with separator `c`. -/
def joinSep (c : Char) : List (List Char) → List Char
  | [] => []
  | [p] => p
  | p :: q :: ps => p ++ c :: joinSep c (q :: ps)

/-- Parses a query string into its (key, value) pairs: split on `&`,
skip empty pieces, split each piece at the first `=` (value empty when
absent) — the `URLSearchParams` constructor's algorithm. -/
def parseQuery (qs : List Char) : List (List Char × List Char) :=
  ((splitAll '&' qs).filter (fun p => p ≠ [])).map (fun piece =>
    let kv := splitFirst '=' piece
    (kv.1, kv.2.getD []))

/-- Serializes (key, value) pairs back to a query string
(`URLSearchParams.toString`: `key=value` joined with `&`). -/
def printQuery (pairs : List (List Char × List Char)) : List Char :=
  joinSep '&' (pairs.map (fun kv => kv.1 ++ '=' :: kv.2))

/-- A parsed URL: scheme, host (opaque authority), path, optional query
(pair list; `none` = no `?` present), optional fragment. -/
structure URLRec where
  scheme : List Char
  host : List Char
  path : List Char
  query : Option (List (List Char × List Char))
  fragment : Option (List Char)
deriving DecidableEq, Repr

def isLowerAlpha (c : Char) : Bool := 'a' ≤ c && c ≤ 'z'

/-- Parses a URL string (model of `new URL(url)`; `none` models the
constructor throwing).  Fragment is everything after the first `#`;
query everything between the first `?` before that and the `#`; the
scheme must be nonempty lowercase letters followed by `://`; the host is
everything up to the next `/` and must be nonempty. -/
def parseURL (s : List Char) : Option URLRec :=
  let h := splitFirst '#' s
  let q := splitFirst '?' h.1
  let sc := splitFirst ':' q.1
  match sc.2 with
  | none => none
  | some r1 =>
    if sc.1 = [] || !sc.1.all isLowerAlpha then none
    else
      match r1 with
      | '/' :: '/' :: hostpath =>
        let hp := splitFirst '/' hostpath
        if hp.1 = [] then none
        else
          some { scheme := sc.1
                 host := hp.1
                 path := match hp.2 with | none => [] | some p => '/' :: p
                 query := q.2.map parseQuery
                 fragment := h.2 }
      | _ => none

/-- The `?query` part of a serialized URL (empty when the query is null). -/
def queryPart : Option (List (List Char × List Char)) → List Char
  | none => []
  | some ps => '?' :: printQuery ps

/-- The `#fragment` part of a serialized URL (empty when absent). -/
def fragmentPart : Option (List Char) → List Char
  | none => []
  | some f => '#' :: f

/-- Serializes a URL (model of `URL.prototype.toString` on the fragment
of the language `parseURL` accepts). -/
def printURL (r : URLRec) : List Char :=
  r.scheme ++ ':' :: '/' :: '/' :: r.host ++ r.path ++
  queryPart r.query ++ fragmentPart r.fragment

/-- The fixed tracking-parameter list of `cleanUrl` (src/index.ts). -/
def trackingParams : List (List Char) :=
  ["utm_source", "utm_medium", "utm_campaign", "utm_term", "utm_content",
   "fbclid", "gclid", "msclkid", "ref"].map String.toList

/-- One `searchParams.delete(p)`: removes every pair whose key is `p`. -/
def deleteParam (ps : List (List Char × List Char)) (p : List Char) :
    List (List Char × List Char) :=
  ps.filter (fun kv => kv.1 ≠ p)

/-- The effect of `trackingParams.forEach((p) => u.searchParams.delete(p))`
on a parsed URL, including the WHATWG update step that sets the query to
null when the parameter list has become empty. -/
def deleteTracking (r : URLRec) : URLRec :=
  { r with
    query := match r.query with
      | none => none
      | some ps =>
        let ps' := trackingParams.foldl deleteParam ps
        if ps' = [] then none else some ps' }

/-- `cleanUrl` (src/index.ts): parse, delete the tracking parameters,
serialize; return the input unchanged if parsing fails.
```
try { const u = new URL(url); trackingParams.forEach((p) =>
u.searchParams.delete(p)); return u.toString(); } catch { return url; }
``` -/
def cleanUrl (url : List Char) : List Char :=
  match parseURL url with
  | none => url
  | some u => printURL (deleteTracking u)

/- ===========================================================================
Configuration resolution (`EnvConfigSchema` / `CONFIG` in src/index.ts).
=========================================================================== -/

inductive OutputFormat where
  | dense
  | json
  | minimal
deriving DecidableEq, Repr

def digitVal (c : Char) : Option Nat :=
  if '0' ≤ c && c ≤ '9' then some (c.toNat - '0'.toNat) else none

/-- The value of an all-digit string (`none` if any char is not a digit;
`some 0` for the empty string — callers enforce nonemptiness). -/
def digitsVal (s : List Char) : Option Nat :=
  s.foldl (fun acc c => acc.bind (fun a => (digitVal c).map (fun d => 10 * a + d))) (some 0)

/-- Model of JS `Number(s)` (what `z.coerce.number()` applies), on the
decimal fragment: trimmed-empty is `0`; optional sign; decimal digits
with an optional fractional part; anything else is `NaN` (`none`).
(Hex/exponent forms are outside the model; no claim touches them.) -/
def jsNumberOfString (s : List Char) : Option JNumber :=
  let t := jsTrim s
  if t = [] then some (.ofNat 0)
  else
    let sr : Bool × List Char :=
      match t with
      | '-' :: r => (true, r)
      | '+' :: r => (false, r)
      | r => (false, r)
    let p := splitFirst '.' sr.2
    let mk : Nat → Nat → JNumber := fun m sc =>
      ⟨if sr.1 then -(m : Int) else (m : Int), sc⟩
    match p.2 with
    | none =>
      if p.1 = [] then none
      else (digitsVal p.1).map (fun v => mk v 0)
    | some frac =>
      if p.1 = [] && frac = [] then none
      else
        match digitsVal p.1, digitsVal frac with
        | some i, some f => some (mk (i * (pow10 frac.length).toNat + f) frac.length)
        | _, _ => none

/-- Model of JS `parseInt(s, 10)`: trim, optional sign, then the longest
leading digit run (the rest is ignored); no leading digit is `NaN`
(`none`). -/
def jsParseInt10 (s : List Char) : Option Int :=
  let t := jsTrim s
  let sr : Bool × List Char :=
    match t with
    | '-' :: r => (true, r)
    | '+' :: r => (false, r)
    | r => (false, r)
  let digits := sr.2.takeWhile (fun c => '0' ≤ c && c ≤ '9')
  if digits = [] then none
  else (digitsVal digits).map (fun v => if sr.1 then -(v : Int) else (v : Int))

/-- The raw environment (each key an optional string, as `process.env`). -/
structure EnvInput where
  ddgMaxResults : Option (List Char) := none
  ddgMaxSnippetLength : Option (List Char) := none
  ddgEnableFullContent : Option (List Char) := none
  ddgStripEmoji : Option (List Char) := none
  ddgOutputFormat : Option (List Char) := none
  rateLimitPerSecond : Option (List Char) := none
  rateLimitPerMonth : Option (List Char) := none

/-- `z.coerce.number().min(lo).max(hi).default(dflt)`: absent takes the
default; present is coerced with `Number` (`NaN` is an invalid type and
fails the parse), then range-checked — out of range fails the parse, it
is not clamped. -/
def zodCoercedNumber (lo hi : Int) (dflt : JNumber) (v : Option (List Char)) :
    Except (List Char) JNumber :=
  match v with
  | none => .ok dflt
  | some s =>
    match jsNumberOfString s with
    | none => .error "Expected number, received nan".toList
    | some q =>
      if !q.geInt lo then .error "Number must be greater than or equal".toList
      else if !q.leInt hi then .error "Number must be less than or equal".toList
      else .ok q

/-- `z.preprocess((v) => v === "true" || v === "1", z.boolean().default(false))`:
the preprocessor always yields a boolean, so this never fails. -/
def zodBoolFlag (v : Option (List Char)) : Bool :=
  v = some "true".toList || v = some "1".toList

/-- `z.enum(["dense", "json", "minimal"]).default("dense")`: absent
takes the default; any other string fails the parse. -/
def zodOutputFormat (v : Option (List Char)) : Except (List Char) OutputFormat :=
  match v with
  | none => .ok .dense
  | some s =>
    if s = "dense".toList then .ok .dense
    else if s = "json".toList then .ok .json
    else if s = "minimal".toList then .ok .minimal
    else .error "Invalid enum value".toList

/-- The parsed `EnvConfigSchema` output. -/
structure EnvConfig where
  maxResultsEnv : JNumber
  maxSnippetLengthEnv : JNumber
  enableFullContentEnv : Bool
  stripEmojiEnv : Bool
  outputFormatEnv : OutputFormat
deriving DecidableEq, Repr

/-- `EnvConfigSchema.parse(process.env)` — an error models the zod parse
throwing, which aborts startup. -/
def parseEnvConfig (env : EnvInput) : Except (List Char) EnvConfig :=
  match zodCoercedNumber 1 20 (.ofNat 3) env.ddgMaxResults with
  | .error e => .error e
  | .ok mr =>
    match zodCoercedNumber 50 500 (.ofNat 150) env.ddgMaxSnippetLength with
    | .error e => .error e
    | .ok ms =>
      match zodOutputFormat env.ddgOutputFormat with
      | .error e => .error e
      | .ok fmt =>
        .ok { maxResultsEnv := mr
              maxSnippetLengthEnv := ms
              enableFullContentEnv := zodBoolFlag env.ddgEnableFullContent
              stripEmojiEnv := zodBoolFlag env.ddgStripEmoji
              outputFormatEnv := fmt }

/-- `CONFIG.rateLimit`: `parseInt(env ?? default, 10)` for each cap.
`none` models the stored value being `NaN` — note `parseInt` never
throws, so a malformed cap does NOT abort startup. -/
structure RateLimitResolved where
  perSecond : Option Int
  perMonth : Option Int
deriving DecidableEq, Repr

/-- `CONFIG.search` (the fields the pipeline reads). -/
structure SearchConfig where
  maxQueryLength : Nat := 400
  maxResults : Nat := 20
  defaultResults : JNumber
  maxSnippetLength : JNumber
  enableFullContent : Bool
  stripEmoji : Bool
  outputFormat : OutputFormat
deriving DecidableEq, Repr

structure Config where
  rateLimit : RateLimitResolved
  search : SearchConfig
deriving DecidableEq, Repr

/-- Building `CONFIG` at startup: the zod parse of the `DDG_*` keys can
throw (failing startup); the rate caps are bare `parseInt` of
`RATE_LIMIT_PER_SECOND ?? "1"` / `RATE_LIMIT_PER_MONTH ?? "15000"` and
never fail, a malformed value silently becoming `NaN` (`none`). -/
def resolveConfig (env : EnvInput) : Except (List Char) Config :=
  match parseEnvConfig env with
  | .error er => .error er
  | .ok e =>
    .ok
      { rateLimit :=
          { perSecond := jsParseInt10 (env.rateLimitPerSecond.getD "1".toList)
            perMonth := jsParseInt10 (env.rateLimitPerMonth.getD "15000".toList) }
        search :=
          { maxQueryLength := 400
            maxResults := 20
            defaultResults := e.maxResultsEnv
            maxSnippetLength := e.maxSnippetLengthEnv
            enableFullContent := e.enableFullContentEnv
            stripEmoji := e.stripEmojiEnv
            outputFormat := e.outputFormatEnv } }

/- ===========================================================================
Rate limiting (`requestCount` / `checkRateLimit` in src/index.ts).
The caps are taken as integers: the limiter's theorems describe the
configuration actually being numeric (the NaN case a malformed env
produces is documented at `resolveConfig`).
=========================================================================== -/

def ONE_SECOND_MS : Int := 1000
def ONE_MONTH_MS : Int := 30 * 24 * 60 * 60 * 1000

structure RateLimitCaps where
  perSecond : Int
  perMonth : Int
deriving DecidableEq, Repr

structure RequestCount where
  second : Nat
  month : Nat
  lastSecondReset : Int
  lastMonthReset : Int
deriving DecidableEq, Repr

/-- The outcome of `checkRateLimit`: either the call is admitted (the
counters were incremented) or an error was thrown; either way the
resulting global `requestCount` state is carried. -/
inductive RLResult where
  | admitted (s : RequestCount)
  | rejected (msg : List Char) (s : RequestCount)
deriving DecidableEq, Repr

def perSecondMessage (caps : RateLimitCaps) : List Char :=
  "Rate limit exceeded: Maximum ".toList ++ (toString caps.perSecond).toList ++
  " request(s) per second".toList

def perMonthMessage (caps : RateLimitCaps) : List Char :=
  "Rate limit exceeded: Maximum ".toList ++ (toString caps.perMonth).toList ++
  " requests per month".toList

/-- The lazy window resets at the head of `checkRateLimit`. -/
def applyResets (now : Int) (s : RequestCount) : RequestCount :=
  let s1 :=
    if now - s.lastSecondReset > ONE_SECOND_MS then
      { s with second := 0, lastSecondReset := now }
    else s
  if now - s1.lastMonthReset > ONE_MONTH_MS then
    { s1 with month := 0, lastMonthReset := now }
  else s1

/-- `checkRateLimit` (src/index.ts): reset elapsed windows, reject when a
counter has reached its cap (per-second checked first), otherwise
increment both counters. -/
def checkRateLimit (caps : RateLimitCaps) (now : Int) (s : RequestCount) : RLResult :=
  let s2 := applyResets now s
  if (s2.second : Int) ≥ caps.perSecond then .rejected (perSecondMessage caps) s2
  else if (s2.month : Int) ≥ caps.perMonth then .rejected (perMonthMessage caps) s2
  else .admitted { s2 with second := s2.second + 1, month := s2.month + 1 }

/-- The global `requestCount` state after a `checkRateLimit` call,
whether it threw or not. -/
def stateAfterCheck (caps : RateLimitCaps) (now : Int) (s : RequestCount) : RequestCount :=
  match checkRateLimit caps now s with
  | .admitted s' => s'
  | .rejected _ s' => s'

/- ===========================================================================
Argument validation (`isValidQuery` … `isWebSearchArgs` / `isNewsSearchArgs`).
Caller-supplied JSON values are modelled by `JValue`; an object carries
the six fields the handlers destructure (other keys are ignored by the
source's destructuring, so they are not modelled). -/

inductive JValue where
  | jnull
  | jbool (b : Bool)
  | jnum (q : JNumber)
  | jstr (s : List Char)
  | jobj (query count limit safeSearch region time : Option JValue)

/-- JS truthiness (`!args`): null, false, 0, and "" are falsy; objects
are truthy. -/
def jsFalsy : JValue → Bool
  | .jnull => true
  | .jbool b => !b
  | .jnum q => q.mant = 0
  | .jstr s => s = []
  | .jobj _ _ _ _ _ _ => false

/-- `isValidQuery`: a string, trimmed nonempty, length at most
`CONFIG.search.maxQueryLength` (the constant 400). -/
def isValidQuery (query : Option JValue) : Bool :=
  match query with
  | some (.jstr s) => decide ((jsTrim s).length > 0) && decide (s.length ≤ 400)
  | _ => false

/-- `isValidCount`: undefined, or a number in `[1, CONFIG.search.maxResults]`
(the constant 20).  Note: `typeof count === "number" && count >= 1 &&
count <= 20` — there is no integrality check. -/
def isValidCount (count : Option JValue) : Bool :=
  match count with
  | none => true
  | some (.jnum q) => q.geInt 1 && q.leInt 20
  | some _ => false

/-- `isValidLimit`: same check as `isValidCount`. -/
def isValidLimit (limit : Option JValue) : Bool :=
  match limit with
  | none => true
  | some (.jnum q) => q.geInt 1 && q.leInt 20
  | some _ => false

/-- `isValidSafeSearch`: undefined or one of the three level strings. -/
def isValidSafeSearch (safeSearch : Option JValue) : Bool :=
  match safeSearch with
  | none => true
  | some (.jstr s) =>
    s = "strict".toList || s = "moderate".toList || s = "off".toList
  | some _ => false

/-- `isValidTime`: undefined or one of the five range strings. -/
def isValidTime (time : Option JValue) : Bool :=
  match time with
  | none => true
  | some (.jstr s) =>
    s = "day".toList || s = "week".toList || s = "month".toList ||
    s = "year".toList || s = "all".toList
  | some _ => false

def VALID_REGIONS : List (List Char) :=
  ["wt-wt", "us-en", "uk-en", "ca-en", "au-en", "de-de", "fr-fr", "es-es",
   "it-it", "jp-jp", "br-pt", "mx-es", "in-en"].map String.toList

def isAlphaCI (c : Char) : Bool :=
  ('a' ≤ c && c ≤ 'z') || ('A' ≤ c && c ≤ 'Z')

/-- The `/^[a-z]\x7b2\x7d-[a-z]\x7b2\x7d$/i` test. -/
def regionPatternTest (s : List Char) : Bool :=
  match s with
  | [a, b, d, e, f] => isAlphaCI a && isAlphaCI b && d = '-' && isAlphaCI e && isAlphaCI f
  | _ => false

/-- `isValidRegion`: undefined, a listed region, or an `xx-xx`-shaped
string (case-insensitive). -/
def isValidRegion (region : Option JValue) : Bool :=
  match region with
  | none => true
  | some (.jstr s) => decide (s ∈ VALID_REGIONS) || regionPatternTest s
  | some _ => false

/-- `isWebSearchArgs`: a non-null object whose destructured fields all
validate. -/
def isWebSearchArgs (args : JValue) : Bool :=
  match args with
  | .jobj query count limit safeSearch region time =>
    isValidQuery query && isValidCount count && isValidLimit limit &&
    isValidSafeSearch safeSearch && isValidRegion region && isValidTime time
  | _ => false

/-- `isNewsSearchArgs`: as `isWebSearchArgs` without the region check. -/
def isNewsSearchArgs (args : JValue) : Bool :=
  match args with
  | .jobj query count limit safeSearch _region time =>
    isValidQuery query && isValidCount count && isValidLimit limit &&
    isValidSafeSearch safeSearch && isValidTime time
  | _ => false

/- ===========================================================================
Typed arguments (the `WebSearchArgs` / `NewsSearchArgs` interfaces) and
the narrowing the TypeScript cast performs after validation.
=========================================================================== -/

inductive SafeSearchLevel where
  | strict
  | moderate
  | off
deriving DecidableEq, Repr

inductive TimeRange where
  | day
  | week
  | month
  | year
  | all
deriving DecidableEq, Repr

structure WebSearchArgs where
  query : List Char
  count : Option JNumber := none
  limit : Option JNumber := none
  safeSearch : Option SafeSearchLevel := none
  region : Option (List Char) := none
  time : Option TimeRange := none
deriving DecidableEq, Repr

structure NewsSearchArgs where
  query : List Char
  count : Option JNumber := none
  limit : Option JNumber := none
  safeSearch : Option SafeSearchLevel := none
  time : Option TimeRange := none
deriving DecidableEq, Repr

def decodeStr : Option JValue → Option (List Char)
  | some (.jstr s) => some s
  | _ => none

def decodeNum : Option JValue → Option JNumber
  | some (.jnum q) => some q
  | _ => none

def decodeSafeSearch (v : Option JValue) : Option SafeSearchLevel :=
  match v with
  | some (.jstr s) =>
    if s = "strict".toList then some .strict
    else if s = "moderate".toList then some .moderate
    else if s = "off".toList then some .off
    else none
  | _ => none

def decodeTime (v : Option JValue) : Option TimeRange :=
  match v with
  | some (.jstr s) =>
    if s = "day".toList then some .day
    else if s = "week".toList then some .week
    else if s = "month".toList then some .month
    else if s = "year".toList then some .year
    else if s = "all".toList then some .all
    else none
  | _ => none

/-- The unchecked `args as WebSearchArgs` cast: under a successful
`isWebSearchArgs` every default below is unreachable. -/
def toWebSearchArgs (query count limit safeSearch region time : Option JValue) :
    WebSearchArgs :=
  { query := (decodeStr query).getD []
    count := decodeNum count
    limit := decodeNum limit
    safeSearch := decodeSafeSearch safeSearch
    region := decodeStr region
    time := decodeTime time }

/-- The unchecked `args as NewsSearchArgs` cast. -/
def toNewsSearchArgs (query count limit safeSearch time : Option JValue) :
    NewsSearchArgs :=
  { query := (decodeStr query).getD []
    count := decodeNum count
    limit := decodeNum limit
    safeSearch := decodeSafeSearch safeSearch
    time := decodeTime time }

/- ===========================================================================
Parameter translation (`getSafeSearchType` / `getTimeType`) and the
outbound provider options (the object literal passed to `DDG.search` /
`DDG.searchNews`, whose `time` key is added by the conditional spread
`...(timeType !== undefined && \x7b time: timeType \x7d)` — so the key
is entirely absent, modelled `none`, when `getTimeType` returned
undefined). -/

/-- `DDG.SafeSearchType`. -/
inductive SafeSearchType where
  | STRICT
  | MODERATE
  | OFF
deriving DecidableEq, Repr

/-- `DDG.SearchTimeType`. -/
inductive SearchTimeType where
  | DAY
  | WEEK
  | MONTH
  | YEAR
deriving DecidableEq, Repr

/-- `getSafeSearchType` (src/index.ts). -/
def getSafeSearchType : SafeSearchLevel → SafeSearchType
  | .strict => .STRICT
  | .moderate => .MODERATE
  | .off => .OFF

/-- `getTimeType` (src/index.ts): `"all"` yields undefined, the four
concrete ranges map to the provider constants. -/
def getTimeType : TimeRange → Option SearchTimeType
  | .all => none
  | .day => some .DAY
  | .week => some .WEEK
  | .month => some .MONTH
  | .year => some .YEAR

structure WebProviderOptions where
  safeSearch : SafeSearchType
  region : List Char
  time : Option SearchTimeType
deriving DecidableEq, Repr

structure NewsProviderOptions where
  safeSearch : SafeSearchType
  time : Option SearchTimeType
deriving DecidableEq, Repr

/-- The options `performWebSearch` passes to `DDG.search`, after the
destructuring defaults (`safeSearch = "moderate"`, `region = "wt-wt"`,
`time = "all"`). -/
def buildWebProviderOptions (args : WebSearchArgs) : WebProviderOptions :=
  { safeSearch := getSafeSearchType (args.safeSearch.getD .moderate)
    region := args.region.getD "wt-wt".toList
    time := getTimeType (args.time.getD .all) }

/-- The options `performNewsSearch` passes to `DDG.searchNews`. -/
def buildNewsProviderOptions (args : NewsSearchArgs) : NewsProviderOptions :=
  { safeSearch := getSafeSearchType (args.safeSearch.getD .moderate)
    time := getTimeType (args.time.getD .all) }

/- ===========================================================================
Provider responses and result normalization / rendering
(`performWebSearch` / `performNewsSearch`).
=========================================================================== -/

/-- A raw result from `DDG.search`. -/
structure RawWebResult where
  title : List Char
  description : List Char
  url : List Char
  hostname : List Char
deriving DecidableEq, Repr

/-- A raw result from `DDG.searchNews` (`date` is a timestamp). -/
structure RawNewsResult where
  title : List Char
  excerpt : List Char
  url : List Char
  syndicate : List Char
  date : Int
  relativeTime : List Char
deriving DecidableEq, Repr

structure WebResponse where
  noResults : Bool
  results : List RawWebResult
deriving DecidableEq, Repr

structure NewsResponse where
  noResults : Bool
  results : List RawNewsResult
deriving DecidableEq, Repr

/-- The normalized `WebSearchResult` interface. -/
structure WebSearchResult where
  title : List Char
  description : List Char
  url : List Char
  hostname : List Char
deriving DecidableEq, Repr

/-- The normalized `NewsSearchResult` interface. -/
structure NewsSearchResult where
  title : List Char
  excerpt : List Char
  url : List Char
  source : List Char
  date : List Char
  relativeTime : List Char
deriving DecidableEq, Repr

def toHexDigit (n : Nat) : Char :=
  if n < 10 then Char.ofNat ('0'.toNat + n) else Char.ofNat ('a'.toNat + n - 10)

/-- One character under `JSON.stringify`'s string quoting. -/
def jsonEscapeChar (c : Char) : List Char :=
  if c = '"' then ['\\', '"']
  else if c = '\\' then ['\\', '\\']
  else if c = '\n' then ['\\', 'n']
  else if c = '\r' then ['\\', 'r']
  else if c = '\t' then ['\\', 't']
  else if c = Char.ofNat 8 then ['\\', 'b']
  else if c = Char.ofNat 12 then ['\\', 'f']
  else if c.toNat < 0x20 then
    ['\\', 'u', '0', '0', toHexDigit (c.toNat / 16), toHexDigit (c.toNat % 16)]
  else [c]

def jsonString (s : List Char) : List Char :=
  '"' :: (s.map jsonEscapeChar).flatten ++ ['"']

/-- `JSON.stringify` of one normalized web result (fields in property
order). -/
def jsonWebResult (r : WebSearchResult) : List Char :=
  "\x7b\"title\":".toList ++ jsonString r.title ++
  ",\"description\":".toList ++ jsonString r.description ++
  ",\"url\":".toList ++ jsonString r.url ++
  ",\"hostname\":".toList ++ jsonString r.hostname ++ "\x7d".toList

/-- `JSON.stringify` of one normalized news result. -/
def jsonNewsResult (r : NewsSearchResult) : List Char :=
  "\x7b\"title\":".toList ++ jsonString r.title ++
  ",\"excerpt\":".toList ++ jsonString r.excerpt ++
  ",\"url\":".toList ++ jsonString r.url ++
  ",\"source\":".toList ++ jsonString r.source ++
  ",\"date\":".toList ++ jsonString r.date ++
  ",\"relativeTime\":".toList ++ jsonString r.relativeTime ++ "\x7d".toList

def jsonArray (items : List (List Char)) : List Char :=
  '[' :: joinSep ',' items ++ [']']

/-- JS number-to-string for the denoted decimal (exact for the canonical
decimals that reach it; only used in the dense header interpolation). -/
def jnumToString (q : JNumber) : List Char :=
  if q.scale = 0 then (toString q.mant).toList
  else
    let sign : List Char := if q.mant < 0 then ['-'] else []
    let a := q.mant.natAbs
    let p := (pow10 q.scale).toNat
    let fracDigits := (Nat.repr (a % p)).toList
    let padded := List.replicate (q.scale - fracDigits.length) '0' ++ fracDigits
    let stripped := (padded.reverse.dropWhile (fun c => c = '0')).reverse
    if stripped = [] then sign ++ (Nat.repr (a / p)).toList
    else sign ++ (Nat.repr (a / p)).toList ++ '.' :: stripped

/-- `limit ?? count ?? CONFIG.search.defaultResults`. -/
def effectiveLimit (cfg : SearchConfig) (limit count : Option JNumber) : JNumber :=
  limit.getD (count.getD cfg.defaultResults)

def noResultsMessage (query : List Char) : List Char :=
  "No results for \"".toList ++ query ++ "\"".toList

def noNewsMessage (query : List Char) : List Char :=
  "No news for \"".toList ++ query ++ "\"".toList

/-- The normalized web result list: `searchResults.results.slice(0,
effectiveLimit).map(...)` followed by the second emoji-stripping pass
over descriptions. -/
def normalizeWebResults (cfg : SearchConfig) (eff : JNumber) (resp : WebResponse) :
    List WebSearchResult :=
  let results := (jsSlice resp.results eff).map (fun r =>
    { title := if cfg.stripEmoji then stripEmojis r.title else r.title
      description :=
        let d := if r.description = [] then r.title else r.description
        if cfg.enableFullContent then d else truncateSnippet d cfg.maxSnippetLength
      url := cleanUrl r.url
      hostname := r.hostname : WebSearchResult })
  if cfg.stripEmoji then
    results.map (fun r => { r with description := stripEmojis r.description })
  else results

/-- The normalized news result list (`fmtDate` stands for the platform's
locale formatter `formatDate`, a collaborator of the core). -/
def normalizeNewsResults (fmtDate : Int → List Char) (cfg : SearchConfig)
    (eff : JNumber) (resp : NewsResponse) : List NewsSearchResult :=
  let results := (jsSlice resp.results eff).map (fun r =>
    { title := if cfg.stripEmoji then stripEmojis r.title else r.title
      excerpt := if cfg.enableFullContent then r.excerpt
                 else truncateSnippet r.excerpt cfg.maxSnippetLength
      url := cleanUrl r.url
      source := r.syndicate
      date := fmtDate r.date
      relativeTime := r.relativeTime : NewsSearchResult })
  if cfg.stripEmoji then
    results.map (fun r => { r with excerpt := stripEmojis r.excerpt })
  else results

/-- The web output for a provider response (the part of
`performWebSearch` after the provider call returned). -/
def webSearchOutput (cfg : SearchConfig) (args : WebSearchArgs) (resp : WebResponse) :
    List Char :=
  let eff := effectiveLimit cfg args.limit args.count
  if resp.noResults then noResultsMessage args.query
  else
    let results := normalizeWebResults cfg eff resp
    match cfg.outputFormat with
    | .json => jsonArray (results.map jsonWebResult)
    | .minimal => joinSep '\n' (results.map (fun r => r.title ++ ": ".toList ++ r.url))
    | .dense =>
      let formatted := joinSep '\n' (results.enum.map (fun ri =>
        '[' :: (toString (ri.1 + 1)).toList ++ "] ".toList ++ ri.2.title ++
        " | ".toList ++ ri.2.description ++ " | ".toList ++ ri.2.hostname ++
        " ".toList ++ ri.2.url))
      "Web:\"".toList ++ args.query ++ "\" (".toList ++
        (toString results.length).toList ++ "/".toList ++ jnumToString eff ++
        ")\n".toList ++ formatted

/-- The news output for a provider response. -/
def newsSearchOutput (fmtDate : Int → List Char) (cfg : SearchConfig)
    (args : NewsSearchArgs) (resp : NewsResponse) : List Char :=
  let eff := effectiveLimit cfg args.limit args.count
  if resp.noResults then noNewsMessage args.query
  else
    let results := normalizeNewsResults fmtDate cfg eff resp
    match cfg.outputFormat with
    | .json => jsonArray (results.map jsonNewsResult)
    | .minimal => joinSep '\n' (results.map (fun r => r.title ++ ": ".toList ++ r.url))
    | .dense =>
      let formatted := joinSep '\n' (results.enum.map (fun ri =>
        '[' :: (toString (ri.1 + 1)).toList ++ "] ".toList ++ ri.2.title ++
        " | ".toList ++ ri.2.excerpt ++ " | ".toList ++ ri.2.source ++
        " ".toList ++ ri.2.relativeTime ++ " ".toList ++ ri.2.url))
      "News:\"".toList ++ args.query ++ "\" (".toList ++
        (toString results.length).toList ++ "/".toList ++ jnumToString eff ++
        ")\n".toList ++ formatted

/-- The observable outcome of a `performWebSearch` / `performNewsSearch`
call: the returned string or the thrown error, the rate-limit state
left behind, and what (if anything) was sent to the provider. -/
structure SearchCallOutcome (ω : Type) where
  result : Except (List Char) (List Char)
  state : RequestCount
  providerCalls : Nat
  sentOptions : Option ω
deriving Repr

/-- `performWebSearch`: resolve the effective limit, check the rate
limit (a rejection throws before any provider call), call the provider
with the translated options (`resp` is the black-box provider's
response), then normalize and render. -/
def performWebSearch (cfg : SearchConfig) (caps : RateLimitCaps) (now : Int)
    (rl : RequestCount) (args : WebSearchArgs) (resp : WebResponse) :
    SearchCallOutcome WebProviderOptions :=
  match checkRateLimit caps now rl with
  | .rejected msg s' => ⟨.error msg, s', 0, none⟩
  | .admitted s' =>
    ⟨.ok (webSearchOutput cfg args resp), s', 1, some (buildWebProviderOptions args)⟩

/-- `performNewsSearch`. -/
def performNewsSearch (fmtDate : Int → List Char) (cfg : SearchConfig)
    (caps : RateLimitCaps) (now : Int) (rl : RequestCount) (args : NewsSearchArgs)
    (resp : NewsResponse) : SearchCallOutcome NewsProviderOptions :=
  match checkRateLimit caps now rl with
  | .rejected msg s' => ⟨.error msg, s', 0, none⟩
  | .admitted s' =>
    ⟨.ok (newsSearchOutput fmtDate cfg args resp), s', 1,
     some (buildNewsProviderOptions args)⟩

/- ===========================================================================
Tool dispatch (the `CallToolRequestSchema` handler).
=========================================================================== -/

/-- An MCP tool result: the single text content item and the error flag. -/
structure ToolResult where
  text : List Char
  isError : Bool
deriving DecidableEq, Repr

def invalidWebArgsMessage : List Char :=
  ("Invalid arguments for duckduckgo_web_search. " ++
   "Query must be a non-empty string (max 400 chars).").toList

def invalidNewsArgsMessage : List Char :=
  ("Invalid arguments for duckduckgo_news_search. " ++
   "Query must be a non-empty string (max 400 chars).").toList

/-- The `try` body of the handler: `.error` models a thrown exception
reaching the handler's own `catch`. -/
structure BodyOutcome where
  result : Except (List Char) ToolResult
  state : RequestCount
  providerCalls : Nat
deriving Repr

def handleToolCallBody (fmtDate : Int → List Char) (cfg : SearchConfig)
    (caps : RateLimitCaps) (now : Int) (rl : RequestCount) (name : List Char)
    (args : Option JValue) (webResp : WebResponse) (newsResp : NewsResponse) :
    BodyOutcome :=
  match args with
  | none => ⟨.error "No arguments provided".toList, rl, 0⟩
  | some a =>
    if jsFalsy a then ⟨.error "No arguments provided".toList, rl, 0⟩
    else if name = "duckduckgo_web_search".toList then
      match a, isWebSearchArgs a with
      | .jobj q c l ss rg tm, true =>
        let o := performWebSearch cfg caps now rl (toWebSearchArgs q c l ss rg tm) webResp
        ⟨o.result.map (fun text => ⟨text, false⟩), o.state, o.providerCalls⟩
      | _, _ => ⟨.error invalidWebArgsMessage, rl, 0⟩
    else if name = "duckduckgo_news_search".toList then
      match a, isNewsSearchArgs a with
      | .jobj q c l ss _rg tm, true =>
        let o := performNewsSearch fmtDate cfg caps now rl
          (toNewsSearchArgs q c l ss tm) newsResp
        ⟨o.result.map (fun text => ⟨text, false⟩), o.state, o.providerCalls⟩
      | _, _ => ⟨.error invalidNewsArgsMessage, rl, 0⟩
    else ⟨.ok ⟨"Unknown tool: ".toList ++ name, true⟩, rl, 0⟩

/-- The observable outcome of one dispatched tool call. -/
structure DispatchOutcome where
  result : ToolResult
  state : RequestCount
  providerCalls : Nat
deriving Repr

/-- The full `CallToolRequestSchema` handler: every exception the body
throws is caught and rendered as an error-flagged text result — the
handler is total and never propagates a fault. -/
def handleToolCall (fmtDate : Int → List Char) (cfg : SearchConfig)
    (caps : RateLimitCaps) (now : Int) (rl : RequestCount) (name : List Char)
    (args : Option JValue) (webResp : WebResponse) (newsResp : NewsResponse) :
    DispatchOutcome :=
  let b := handleToolCallBody fmtDate cfg caps now rl name args webResp newsResp
  match b.result with
  | .error m => ⟨⟨"Error: ".toList ++ m, true⟩, b.state, b.providerCalls⟩
  | .ok r => ⟨r, b.state, b.providerCalls⟩

/- ===========================================================================
Shared lemmas.
=========================================================================== -/

theorem pow10_pos (n : Nat) : 0 < pow10 n := by
  induction n with
  | zero => simp [pow10]
  | succ n ih => simpa [pow10] using by positivity

theorem checkRateLimit_eq (caps : RateLimitCaps) (now : Int) (s : RequestCount) :
    checkRateLimit caps now s =
      if caps.perSecond ≤ ((applyResets now s).second : Int) then
        .rejected (perSecondMessage caps) (applyResets now s)
      else if caps.perMonth ≤ ((applyResets now s).month : Int) then
        .rejected (perMonthMessage caps) (applyResets now s)
      else
        .admitted { applyResets now s with
                    second := (applyResets now s).second + 1
                    month := (applyResets now s).month + 1 } := rfl

theorem applyResets_second (now : Int) (s : RequestCount) :
    (applyResets now s).second = 0 ∨ (applyResets now s).second = s.second := by
  simp only [applyResets]
  split_ifs <;> simp

theorem applyResets_month (now : Int) (s : RequestCount) :
    (applyResets now s).month = 0 ∨ (applyResets now s).month = s.month := by
  simp only [applyResets]
  split_ifs <;> simp

theorem stateAfterCheck_bounds (caps : RateLimitCaps) (now : Int) (s : RequestCount)
    (hps : 0 ≤ caps.perSecond) (hpm : 0 ≤ caps.perMonth)
    (h1 : (s.second : Int) ≤ caps.perSecond) (h2 : (s.month : Int) ≤ caps.perMonth) :
    ((stateAfterCheck caps now s).second : Int) ≤ caps.perSecond ∧
    ((stateAfterCheck caps now s).month : Int) ≤ caps.perMonth := by
  have hs2 : ((applyResets now s).second : Int) ≤ caps.perSecond := by
    rcases applyResets_second now s with h | h <;> rw [h]
    · simpa using hps
    · exact h1
  have hm2 : ((applyResets now s).month : Int) ≤ caps.perMonth := by
    rcases applyResets_month now s with h | h <;> rw [h]
    · simpa using hpm
    · exact h2
  unfold stateAfterCheck
  rw [checkRateLimit_eq]
  by_cases ha : caps.perSecond ≤ ((applyResets now s).second : Int)
  · rw [if_pos ha]
    exact ⟨hs2, hm2⟩
  · rw [if_neg ha]
    by_cases hb : caps.perMonth ≤ ((applyResets now s).month : Int)
    · rw [if_pos hb]
      exact ⟨hs2, hm2⟩
    · rw [if_neg hb]
      constructor <;> push_cast <;> omega

theorem performWebSearch_state (cfg : SearchConfig) (caps : RateLimitCaps) (now : Int)
    (rl : RequestCount) (args : WebSearchArgs) (resp : WebResponse) :
    (performWebSearch cfg caps now rl args resp).state = stateAfterCheck caps now rl := by
  unfold performWebSearch stateAfterCheck
  rcases checkRateLimit caps now rl <;> rfl

theorem performNewsSearch_state (fmtDate : Int → List Char) (cfg : SearchConfig)
    (caps : RateLimitCaps) (now : Int) (rl : RequestCount) (args : NewsSearchArgs)
    (resp : NewsResponse) :
    (performNewsSearch fmtDate cfg caps now rl args resp).state = stateAfterCheck caps now rl := by
  unfold performNewsSearch stateAfterCheck
  rcases checkRateLimit caps now rl <;> rfl

/-- The rate-limit states reachable from the process-start state
(`requestCount` anchored at time `t0` with zero counters) by any
sequence of web and news search calls — both tools drive the same
shared counters. -/
inductive ReachableState (fmtDate : Int → List Char) (cfg : SearchConfig)
    (caps : RateLimitCaps) (t0 : Int) : RequestCount → Prop where
  | init : ReachableState fmtDate cfg caps t0 ⟨0, 0, t0, t0⟩
  | webStep (now : Int) (args : WebSearchArgs) (resp : WebResponse) {s : RequestCount} :
      ReachableState fmtDate cfg caps t0 s →
      ReachableState fmtDate cfg caps t0 (performWebSearch cfg caps now s args resp).state
  | newsStep (now : Int) (args : NewsSearchArgs) (resp : NewsResponse) {s : RequestCount} :
      ReachableState fmtDate cfg caps t0 s →
      ReachableState fmtDate cfg caps t0 (performNewsSearch fmtDate cfg caps now s args resp).state

/- ===========================================================================
Claim theorems.
=========================================================================== -/

/-- C2: an admission check first applies the lazy window resets; then if
the per-second counter has reached the per-second cap the check throws
the per-second message with the post-reset state unchanged (no counter
incremented); otherwise if the monthly counter has reached the monthly
cap it throws the per-month message, again leaving the post-reset state;
otherwise both counters are incremented and the call is admitted.  The
two messages are distinct, identifying which cap was hit. -/
theorem checkRateLimit_admission_spec (caps : RateLimitCaps) (now : Int) (s : RequestCount) :
    (caps.perSecond ≤ ((applyResets now s).second : Int) →
      checkRateLimit caps now s = .rejected (perSecondMessage caps) (applyResets now s)) ∧
    (((applyResets now s).second : Int) < caps.perSecond →
      caps.perMonth ≤ ((applyResets now s).month : Int) →
      checkRateLimit caps now s = .rejected (perMonthMessage caps) (applyResets now s)) ∧
    (((applyResets now s).second : Int) < caps.perSecond →
      ((applyResets now s).month : Int) < caps.perMonth →
      checkRateLimit caps now s =
        .admitted { applyResets now s with
                    second := (applyResets now s).second + 1
                    month := (applyResets now s).month + 1 }) ∧
    perSecondMessage caps ≠ perMonthMessage caps := by
  refine ⟨?_, ?_, ?_, ?_⟩
  · intro h
    rw [checkRateLimit_eq, if_pos h]
  · intro h1 h2
    rw [checkRateLimit_eq, if_neg (not_le.mpr h1), if_pos h2]
  · intro h1 h2
    rw [checkRateLimit_eq, if_neg (not_le.mpr h1), if_neg (not_le.mpr h2)]
  · intro heq
    have h := congrArg List.getLast? heq
    have hS1 : (" request(s) per second".toList : List Char) ≠ [] := by decide
    have hS2 : (" requests per month".toList : List Char) ≠ [] := by decide
    rw [perSecondMessage, perMonthMessage, List.append_assoc, List.append_assoc,
      List.getLast?_append_of_ne_nil _ (List.append_ne_nil_of_right_ne_nil _ hS1),
      List.getLast?_append_of_ne_nil _ hS1,
      List.getLast?_append_of_ne_nil _ (List.append_ne_nil_of_right_ne_nil _ hS2),
      List.getLast?_append_of_ne_nil _ hS2] at h
    revert h
    decide

/-- Witness for C2 at a concrete input: the initial state under caps
(1/sec, 15000/month) at time 0 is admitted with both counters
incremented to 1. -/
theorem checkRateLimit_admission_spec_witness :
    checkRateLimit ⟨1, 15000⟩ 0 ⟨0, 0, 0, 0⟩ = .admitted ⟨1, 1, 0, 0⟩ := by
  have h := (checkRateLimit_admission_spec ⟨1, 15000⟩ 0 ⟨0, 0, 0, 0⟩).2.2.1
    (by decide) (by decide)
  exact h.trans (by decide)

/-- C7: in every state reachable from the initial rate-limit state by
any sequence of admission checks (web searches, news searches, or both —
they share the counters), the per-second counter is at most the
per-second cap and the monthly counter is at most the monthly cap
(for nonnegative configured caps). -/
theorem rateLimit_counters_bounded (fmtDate : Int → List Char) (cfg : SearchConfig)
    (caps : RateLimitCaps) (t0 : Int) (s : RequestCount)
    (hps : 0 ≤ caps.perSecond) (hpm : 0 ≤ caps.perMonth)
    (h : ReachableState fmtDate cfg caps t0 s) :
    (s.second : Int) ≤ caps.perSecond ∧ (s.month : Int) ≤ caps.perMonth := by
  induction h with
  | init => exact ⟨by simpa using hps, by simpa using hpm⟩
  | webStep now args resp _ ih =>
    rw [performWebSearch_state]
    exact stateAfterCheck_bounds caps now _ hps hpm ih.1 ih.2
  | newsStep now args resp _ ih =>
    rw [performNewsSearch_state]
    exact stateAfterCheck_bounds caps now _ hps hpm ih.1 ih.2

/-- Witness for C7 at the initial state under caps (1/sec, 15000/month). -/
theorem rateLimit_counters_bounded_witness :
    (((⟨0, 0, 0, 0⟩ : RequestCount).second : Int) ≤ (1 : Int)) ∧
    (((⟨0, 0, 0, 0⟩ : RequestCount).month : Int) ≤ (15000 : Int)) :=
  rateLimit_counters_bounded (fun _ => []) ⟨400, 20, .ofNat 3, .ofNat 150, false, false, .dense⟩
    ⟨1, 15000⟩ 0 ⟨0, 0, 0, 0⟩ (by decide) (by decide) .init

/-- C8: the time-range translation maps day/week/month/year to the
corresponding provider constants, and `"all"` (explicit or defaulted)
yields no time value, so the conditional spread leaves the `time` key
entirely absent (`none`) from the outbound provider options. -/
theorem getTimeType_translation :
    getTimeType .day = some .DAY ∧ getTimeType .week = some .WEEK ∧
    getTimeType .month = some .MONTH ∧ getTimeType .year = some .YEAR ∧
    getTimeType .all = none ∧
    (∀ wargs : WebSearchArgs,
      (buildWebProviderOptions wargs).time = getTimeType (wargs.time.getD .all)) ∧
    (∀ wargs : WebSearchArgs, wargs.time.getD .all = .all →
      (buildWebProviderOptions wargs).time = none) ∧
    (∀ nargs : NewsSearchArgs, nargs.time.getD .all = .all →
      (buildNewsProviderOptions nargs).time = none) := by
  refine ⟨rfl, rfl, rfl, rfl, rfl, fun _ => rfl, ?_, ?_⟩
  · intro wargs h
    simp [buildWebProviderOptions, h, getTimeType]
  · intro nargs h
    simp [buildNewsProviderOptions, h, getTimeType]

/-- Witness for C8: arguments that omit `time` produce options without
the time key. -/
theorem getTimeType_translation_witness :
    (buildWebProviderOptions ⟨"q".toList, none, none, none, none, none⟩).time = none ∧
    (buildNewsProviderOptions ⟨"q".toList, none, none, none, none⟩).time = none :=
  ⟨getTimeType_translation.2.2.2.2.2.2.1 _ rfl,
   getTimeType_translation.2.2.2.2.2.2.2 _ rfl⟩

/-- C10: a tool call whose arguments field is absent or null is answered
with the error-flagged text result "Error: No arguments provided", with
no state change and no provider call — the handler returns a result
(it is a total function), so no fault propagates. -/
theorem noArguments_handled (fmtDate : Int → List Char) (cfg : SearchConfig)
    (caps : RateLimitCaps) (now : Int) (rl : RequestCount) (name : List Char)
    (args : Option JValue) (webResp : WebResponse) (newsResp : NewsResponse)
    (h : args = none ∨ args = some .jnull) :
    handleToolCall fmtDate cfg caps now rl name args webResp newsResp =
      ⟨⟨"Error: No arguments provided".toList, true⟩, rl, 0⟩ := by
  have hmsg : "Error: ".toList ++ "No arguments provided".toList =
      "Error: No arguments provided".toList := by decide
  rcases h with h | h <;> subst h <;>
    simp [handleToolCall, handleToolCallBody, jsFalsy, hmsg]

/-- Witness for C10 at a concrete call with absent arguments. -/
theorem noArguments_handled_witness :
    handleToolCall (fun _ => []) ⟨400, 20, .ofNat 3, .ofNat 150, false, false, .dense⟩
      ⟨1, 15000⟩ 0 ⟨0, 0, 0, 0⟩ "duckduckgo_web_search".toList none ⟨true, []⟩ ⟨true, []⟩ =
      ⟨⟨"Error: No arguments provided".toList, true⟩, ⟨0, 0, 0, 0⟩, 0⟩ :=
  noArguments_handled (fun _ => []) ⟨400, 20, .ofNat 3, .ofNat 150, false, false, .dense⟩
    ⟨1, 15000⟩ 0 ⟨0, 0, 0, 0⟩ "duckduckgo_web_search".toList none ⟨true, []⟩ ⟨true, []⟩
    (Or.inl rfl)

/-- C6: when the provider signals no results, the tool output is the
fixed no-results message naming the query — in every output mode — and
that message is never empty. -/
theorem noResults_fixed_message (fmtDate : Int → List Char) (cfg : SearchConfig)
    (mode : OutputFormat) (wargs : WebSearchArgs) (wresp : WebResponse)
    (nargs : NewsSearchArgs) (nresp : NewsResponse) :
    (wresp.noResults = true →
      webSearchOutput { cfg with outputFormat := mode } wargs wresp =
        noResultsMessage wargs.query) ∧
    (nresp.noResults = true →
      newsSearchOutput fmtDate { cfg with outputFormat := mode } nargs nresp =
        noNewsMessage nargs.query) ∧
    noResultsMessage wargs.query ≠ [] ∧ noNewsMessage nargs.query ≠ [] := by
  refine ⟨fun h => ?_, fun h => ?_, ?_, ?_⟩
  · simp [webSearchOutput, h]
  · simp [newsSearchOutput, h]
  · intro hc
    have := congrArg List.length hc
    simp [noResultsMessage] at this
  · intro hc
    have := congrArg List.length hc
    simp [noNewsMessage] at this

/-- Witness for C6: a no-results response in json mode yields the fixed
message. -/
theorem noResults_fixed_message_witness :
    webSearchOutput ⟨400, 20, .ofNat 3, .ofNat 150, false, false, .json⟩
      ⟨"kittens".toList, none, none, none, none, none⟩ ⟨true, []⟩ =
      noResultsMessage "kittens".toList :=
  (noResults_fixed_message (fun _ => [])
    ⟨400, 20, .ofNat 3, .ofNat 150, false, false, .json⟩ .json
    ⟨"kittens".toList, none, none, none, none, none⟩ ⟨true, []⟩
    ⟨"x".toList, none, none, none, none⟩ ⟨true, []⟩).1 rfl

/-- C5 counterexample: for cap 1 (less than the ellipsis length 3) a
3-character text is truncated via a negative JS slice end index, so the
result does not have exactly 1 character (the claim fails for
`maxLen < 3`). -/
theorem truncateSnippet_cap_counterexample :
    ("abc".toList).length > 1 ∧ (truncateSnippet "abc".toList (.ofNat 1)).length ≠ 1 := by
  decide

/-- C5 (amended): for every integer cap `n ≥ 3` (all configurable
snippet caps are ≥ 50), texts of length ≤ n are unchanged and longer
texts map to exactly `n` characters ending in the ellipsis marker. -/
theorem truncateSnippet_amended (text : List Char) (n : Nat) (h3 : 3 ≤ n) :
    (text.length ≤ n → truncateSnippet text (.ofNat n) = text) ∧
    (n < text.length →
      (truncateSnippet text (.ofNat n)).length = n ∧
      ∃ p, truncateSnippet text (.ofNat n) = p ++ "...".toList) := by
  constructor
  · intro h
    have hg : (JNumber.ofNat n).geInt (text.length : Int) = true := by
      simp only [JNumber.geInt, JNumber.ofNat, pow10, decide_eq_true_eq, mul_one]
      exact_mod_cast h
    simp [truncateSnippet, hg]
  · intro h
    have hg : (JNumber.ofNat n).geInt (text.length : Int) = false := by
      simp only [JNumber.geInt, JNumber.ofNat, pow10, mul_one, decide_eq_false_iff_not, not_le]
      exact_mod_cast h
    have hslice : jsSlice text ((JNumber.ofNat n).subInt 3) = text.take (n - 3) := by
      have ht : ((JNumber.ofNat n).subInt 3).trunc = (n : Int) - 3 := by
        simp [JNumber.subInt, JNumber.ofNat, JNumber.trunc, pow10, Int.tdiv_one]
      simp only [jsSlice, ht]
      rw [if_neg (by omega)]
      congr 1
      omega
    refine ⟨?_, ⟨text.take (n - 3), ?_⟩⟩
    · simp [truncateSnippet, hg, hslice]
      omega
    · simp [truncateSnippet, hg, hslice]

/-- Witness for C5 (amended): a 200-character body under the
150-character cap becomes exactly 150 characters ending in "...". -/
theorem truncateSnippet_amended_witness :
    (truncateSnippet (List.replicate 200 'a') (.ofNat 150)).length = 150 ∧
    ∃ p, truncateSnippet (List.replicate 200 'a') (.ofNat 150) = p ++ "...".toList :=
  (truncateSnippet_amended (List.replicate 200 'a') 150 (by norm_num)).2
    (by rw [List.length_replicate]; norm_num)

theorem jsSlice_length_le {α : Type} (l : List α) (e : JNumber)
    (h : JNumber.intLe 1 e) :
    ((jsSlice l e).length : Int) * pow10 e.scale ≤ e.mant := by
  have hp : 0 < pow10 e.scale := pow10_pos _
  have hm : 0 ≤ e.mant := le_trans hp.le (by simpa [JNumber.intLe] using h)
  have ht0 : 0 ≤ e.trunc := Int.tdiv_nonneg hm hp.le
  have hlen : ((jsSlice l e).length : Int) ≤ e.trunc := by
    simp only [jsSlice]
    rw [if_neg (not_lt.mpr ht0), List.length_take]
    omega
  calc ((jsSlice l e).length : Int) * pow10 e.scale
      ≤ e.trunc * pow10 e.scale := mul_le_mul_of_nonneg_right hlen hp.le
    _ ≤ e.mant := by
        rw [JNumber.trunc, Int.tdiv_eq_ediv hm hp.le]
        exact Int.ediv_mul_le e.mant hp.ne'

theorem normalizeWebResults_length (cfg : SearchConfig) (eff : JNumber) (resp : WebResponse) :
    (normalizeWebResults cfg eff resp).length = (jsSlice resp.results eff).length := by
  simp only [normalizeWebResults]
  split_ifs <;> simp

theorem normalizeNewsResults_length (fmtDate : Int → List Char) (cfg : SearchConfig)
    (eff : JNumber) (resp : NewsResponse) :
    (normalizeNewsResults fmtDate cfg eff resp).length = (jsSlice resp.results eff).length := by
  simp only [normalizeNewsResults]
  split_ifs <;> simp

/-- C1: for web and news searches alike, the effective result count is
`limit` when present, else `count` when present, else the configured
default; and (for any effective count ≥ 1, which validation guarantees)
the number of normalized results rendered never exceeds the effective
count, however long the provider's result list is. -/
theorem effectiveLimit_spec (fmtDate : Int → List Char) (cfg : SearchConfig)
    (wargs : WebSearchArgs) (wresp : WebResponse)
    (nargs : NewsSearchArgs) (nresp : NewsResponse) :
    (∀ l, wargs.limit = some l → effectiveLimit cfg wargs.limit wargs.count = l) ∧
    (∀ c, wargs.limit = none → wargs.count = some c →
      effectiveLimit cfg wargs.limit wargs.count = c) ∧
    (wargs.limit = none → wargs.count = none →
      effectiveLimit cfg wargs.limit wargs.count = cfg.defaultResults) ∧
    (JNumber.intLe 1 (effectiveLimit cfg wargs.limit wargs.count) →
      JNumber.intLe
        ((normalizeWebResults cfg (effectiveLimit cfg wargs.limit wargs.count) wresp).length : Int)
        (effectiveLimit cfg wargs.limit wargs.count)) ∧
    (JNumber.intLe 1 (effectiveLimit cfg nargs.limit nargs.count) →
      JNumber.intLe
        ((normalizeNewsResults fmtDate cfg (effectiveLimit cfg nargs.limit nargs.count) nresp).length : Int)
        (effectiveLimit cfg nargs.limit nargs.count)) := by
  refine ⟨?_, ?_, ?_, ?_, ?_⟩
  · intro l hl
    simp [effectiveLimit, hl]
  · intro c hl hc
    simp [effectiveLimit, hl, hc]
  · intro hl hc
    simp [effectiveLimit, hl, hc]
  · intro h
    rw [JNumber.intLe, normalizeWebResults_length]
    exact jsSlice_length_le _ _ h
  · intro h
    rw [JNumber.intLe, normalizeNewsResults_length]
    exact jsSlice_length_le _ _ h

/-- Witness for C1: with `limit = 2` and three provider results, the
rendered count (2) does not exceed the effective count. -/
theorem effectiveLimit_spec_witness :
    JNumber.intLe
      ((normalizeWebResults ⟨400, 20, .ofNat 3, .ofNat 150, false, false, .dense⟩
          (effectiveLimit ⟨400, 20, .ofNat 3, .ofNat 150, false, false, .dense⟩
            (some (.ofNat 2)) none)
          ⟨false, [⟨"t".toList, "d".toList, "u".toList, "h".toList⟩,
                   ⟨"t".toList, "d".toList, "u".toList, "h".toList⟩,
                   ⟨"t".toList, "d".toList, "u".toList, "h".toList⟩]⟩).length : Int)
      (effectiveLimit ⟨400, 20, .ofNat 3, .ofNat 150, false, false, .dense⟩
        (some (.ofNat 2)) none) :=
  (effectiveLimit_spec (fun _ => []) ⟨400, 20, .ofNat 3, .ofNat 150, false, false, .dense⟩
    ⟨"q".toList, none, some (.ofNat 2), none, none, none⟩
    ⟨false, [⟨"t".toList, "d".toList, "u".toList, "h".toList⟩,
             ⟨"t".toList, "d".toList, "u".toList, "h".toList⟩,
             ⟨"t".toList, "d".toList, "u".toList, "h".toList⟩]⟩
    ⟨"q".toList, none, none, none, none⟩ ⟨true, []⟩).2.2.2.1 (by decide)


/-- The claim's invalid-query cases, as a predicate on the raw field: a
string that is empty or whitespace-only (trims to empty) or longer than
400 characters. -/
def badQueryField (v : Option JValue) : Bool :=
  match v with
  | some (.jstr s) => decide (jsTrim s = []) || decide (400 < s.length)
  | _ => false

/-- A `limit`/`count` field that is present but not a number in [1, 20]. -/
def badNumField (v : Option JValue) : Bool :=
  match v with
  | none => false
  | some (.jnum q) => !(q.geInt 1 && q.leInt 20)
  | some _ => true

theorem badQuery_invalid : ∀ v : Option JValue,
    badQueryField v = true → isValidQuery v = false
  | some (.jstr s), h => by
    simp only [badQueryField, Bool.or_eq_true, decide_eq_true_eq] at h
    simp only [isValidQuery]
    rcases h with h | h
    · simp [h]
    · have h4 : decide (s.length ≤ 400) = false := by
        simp
        omega
      simp [h4]
  | none, h => by simp [badQueryField] at h
  | some .jnull, h => by simp [badQueryField] at h
  | some (.jbool b), h => by simp [badQueryField] at h
  | some (.jnum q), h => by simp [badQueryField] at h
  | some (.jobj a b c d e f), h => by simp [badQueryField] at h

theorem badNum_invalid : ∀ v : Option JValue,
    badNumField v = true → isValidCount v = false ∧ isValidLimit v = false
  | none, h => by simp [badNumField] at h
  | some (.jnum q), h => by
    simp only [badNumField, Bool.not_eq_true'] at h
    exact ⟨by simp [isValidCount, h], by simp [isValidLimit, h]⟩
  | some .jnull, _ => ⟨rfl, rfl⟩
  | some (.jbool _), _ => ⟨rfl, rfl⟩
  | some (.jstr _), _ => ⟨rfl, rfl⟩
  | some (.jobj _ _ _ _ _ _), _ => ⟨rfl, rfl⟩

/-- C3 (amended): any argument object whose `query` is empty,
whitespace-only or longer than 400 characters, or whose `limit` or
`count` is present but is not a number in [1, 20] (the code checks
numeric range, not integrality), fails validation for both tools, and
the dispatcher rejects it with an error-flagged result without making
any provider call. -/
theorem invalidArgs_reject (fmtDate : Int → List Char) (cfg : SearchConfig)
    (caps : RateLimitCaps) (now : Int) (rl : RequestCount)
    (q c l ss rg tm : Option JValue) (webResp : WebResponse) (newsResp : NewsResponse)
    (h : (badQueryField q || badNumField c || badNumField l) = true) :
    isWebSearchArgs (.jobj q c l ss rg tm) = false ∧
    isNewsSearchArgs (.jobj q c l ss rg tm) = false ∧
    (handleToolCall fmtDate cfg caps now rl "duckduckgo_web_search".toList
      (some (.jobj q c l ss rg tm)) webResp newsResp).providerCalls = 0 ∧
    (handleToolCall fmtDate cfg caps now rl "duckduckgo_web_search".toList
      (some (.jobj q c l ss rg tm)) webResp newsResp).result.isError = true ∧
    (handleToolCall fmtDate cfg caps now rl "duckduckgo_news_search".toList
      (some (.jobj q c l ss rg tm)) webResp newsResp).providerCalls = 0 ∧
    (handleToolCall fmtDate cfg caps now rl "duckduckgo_news_search".toList
      (some (.jobj q c l ss rg tm)) webResp newsResp).result.isError = true := by
  have hwn : isWebSearchArgs (.jobj q c l ss rg tm) = false ∧
      isNewsSearchArgs (.jobj q c l ss rg tm) = false := by
    cases hq : badQueryField q with
    | true =>
      constructor <;> simp [isWebSearchArgs, isNewsSearchArgs, badQuery_invalid _ hq]
    | false =>
      cases hc : badNumField c with
      | true =>
        constructor <;> simp [isWebSearchArgs, isNewsSearchArgs, (badNum_invalid _ hc).1]
      | false =>
        cases hl : badNumField l with
        | true =>
          constructor <;> simp [isWebSearchArgs, isNewsSearchArgs, (badNum_invalid _ hl).2]
        | false => simp [hq, hc, hl] at h
  have hw := hwn.1
  have hn := hwn.2
  have hne : ("duckduckgo_news_search".toList : List Char) ≠ "duckduckgo_web_search".toList := by
    decide
  refine ⟨hw, hn, ?_, ?_, ?_, ?_⟩ <;>
    simp [handleToolCall, handleToolCallBody, jsFalsy, hw, hn, hne]

/-- Witness for C3 (amended): a whitespace-only query is rejected with
no provider call. -/
theorem invalidArgs_reject_witness :
    isWebSearchArgs (.jobj (some (.jstr "   ".toList)) none none none none none) = false ∧
    (handleToolCall (fun _ => []) ⟨400, 20, .ofNat 3, .ofNat 150, false, false, .dense⟩
      ⟨1, 15000⟩ 0 ⟨0, 0, 0, 0⟩ "duckduckgo_web_search".toList
      (some (.jobj (some (.jstr "   ".toList)) none none none none none))
      ⟨true, []⟩ ⟨true, []⟩).providerCalls = 0 := by
  have h := invalidArgs_reject (fun _ => []) ⟨400, 20, .ofNat 3, .ofNat 150, false, false, .dense⟩
    ⟨1, 15000⟩ 0 ⟨0, 0, 0, 0⟩ (some (.jstr "   ".toList)) none none none none none
    ⟨true, []⟩ ⟨true, []⟩ (by decide)
  exact ⟨h.1, h.2.2.1⟩

/-- C3 counterexample: `limit = 2.5` is present and is not an integer
in [1, 20], yet validation accepts the request and the provider is
called — the claim's integrality requirement does not hold. -/
theorem invalidArgs_integer_counterexample :
    ¬ JNumber.isInt ⟨25, 1⟩ ∧
    JNumber.intLe 1 ⟨25, 1⟩ ∧ (⟨25, 1⟩ : JNumber).leInt 20 = true ∧
    isWebSearchArgs (.jobj (some (.jstr "hello".toList)) none (some (.jnum ⟨25, 1⟩))
      none none none) = true ∧
    (handleToolCall (fun _ => []) ⟨400, 20, .ofNat 3, .ofNat 150, false, false, .dense⟩
      ⟨1, 15000⟩ 0 ⟨0, 0, 0, 0⟩ "duckduckgo_web_search".toList
      (some (.jobj (some (.jstr "hello".toList)) none (some (.jnum ⟨25, 1⟩)) none none none))
      ⟨true, []⟩ ⟨true, []⟩).providerCalls = 1 := by
  refine ⟨?_, by decide, by decide, by decide, by decide⟩
  intro hdvd
  rcases hdvd with ⟨k, hk⟩
  simp [pow10] at hk
  omega


/-- C9 counterexample: with `RATE_LIMIT_PER_SECOND = "abc"` (malformed
numeric input), configuration resolution succeeds — it does not fail at
startup — and the stored per-second cap is `NaN` (modelled `none`),
because the rate caps are read with bare `parseInt`, unlike the
zod-validated keys. -/
theorem rateCap_nan_counterexample :
    resolveConfig { rateLimitPerSecond := some "abc".toList } =
      .ok { rateLimit := { perSecond := none, perMonth := some 15000 },
            search := { maxQueryLength := 400, maxResults := 20, defaultResults := .ofNat 3,
                        maxSnippetLength := .ofNat 150, enableFullContent := false,
                        stripEmoji := false, outputFormat := .dense } } := by
  rfl

/-- C9 (amended): the zod-coerced numeric keys (`DDG_MAX_RESULTS`,
`DDG_MAX_SNIPPET_LENGTH`) do fail startup on malformed (NaN) or
out-of-range input; the rate caps (`RATE_LIMIT_PER_SECOND`,
`RATE_LIMIT_PER_MONTH`) never fail — a malformed cap is stored as NaN
(`none`) by `parseInt`. -/
theorem configResolution_amended (env : EnvInput) :
    (∀ s, env.ddgMaxResults = some s → jsNumberOfString s = none →
      ∃ e, resolveConfig env = .error e) ∧
    (∀ s q, env.ddgMaxResults = some s → jsNumberOfString s = some q →
      (q.geInt 1 = false ∨ q.leInt 20 = false) → ∃ e, resolveConfig env = .error e) ∧
    (∀ s, env.ddgMaxSnippetLength = some s → jsNumberOfString s = none →
      ∃ e, resolveConfig env = .error e) ∧
    (∀ s q, env.ddgMaxSnippetLength = some s → jsNumberOfString s = some q →
      (q.geInt 50 = false ∨ q.leInt 500 = false) → ∃ e, resolveConfig env = .error e) ∧
    (∀ s c, env.rateLimitPerSecond = some s → jsParseInt10 s = none →
      resolveConfig env = .ok c → c.rateLimit.perSecond = none) ∧
    (∀ s c, env.rateLimitPerMonth = some s → jsParseInt10 s = none →
      resolveConfig env = .ok c → c.rateLimit.perMonth = none) := by
  refine ⟨?_, ?_, ?_, ?_, ?_, ?_⟩
  · intro s hs hn
    refine ⟨"Expected number, received nan".toList, ?_⟩
    simp [resolveConfig, parseEnvConfig, zodCoercedNumber, hs, hn]
  · intro s q hs hq hrange
    rcases hrange with h | h
    · refine ⟨"Number must be greater than or equal".toList, ?_⟩
      simp [resolveConfig, parseEnvConfig, zodCoercedNumber, hs, hq, h]
    · by_cases hge : q.geInt 1 = true
      · refine ⟨"Number must be less than or equal".toList, ?_⟩
        simp [resolveConfig, parseEnvConfig, zodCoercedNumber, hs, hq, h, hge]
      · refine ⟨"Number must be greater than or equal".toList, ?_⟩
        simp only [Bool.not_eq_true] at hge
        simp [resolveConfig, parseEnvConfig, zodCoercedNumber, hs, hq, hge]
  · intro s hs hn
    rcases hmr : zodCoercedNumber 1 20 (.ofNat 3) env.ddgMaxResults with e | v
    · exact ⟨e, by simp [resolveConfig, parseEnvConfig, hmr]⟩
    · refine ⟨"Expected number, received nan".toList, ?_⟩
      simp only [resolveConfig, parseEnvConfig, hmr]
      simp [zodCoercedNumber, hs, hn]
  · intro s q hs hq hrange
    rcases hmr : zodCoercedNumber 1 20 (.ofNat 3) env.ddgMaxResults with e | v
    · exact ⟨e, by simp [resolveConfig, parseEnvConfig, hmr]⟩
    · rcases hrange with h | h
      · refine ⟨"Number must be greater than or equal".toList, ?_⟩
        simp only [resolveConfig, parseEnvConfig, hmr]
        simp [zodCoercedNumber, hs, hq, h]
      · by_cases hge : q.geInt 50 = true
        · refine ⟨"Number must be less than or equal".toList, ?_⟩
          simp only [resolveConfig, parseEnvConfig, hmr]
          simp [zodCoercedNumber, hs, hq, h, hge]
        · refine ⟨"Number must be greater than or equal".toList, ?_⟩
          simp only [Bool.not_eq_true] at hge
          simp only [resolveConfig, parseEnvConfig, hmr]
          simp [zodCoercedNumber, hs, hq, hge]
  · intro s c hs hn hok
    rcases hpe : parseEnvConfig env with e | ec
    · simp [resolveConfig, hpe] at hok
    · simp [resolveConfig, hpe] at hok
      rw [← hok]
      simp [hs, hn]
  · intro s c hs hn hok
    rcases hpe : parseEnvConfig env with e | ec
    · simp [resolveConfig, hpe] at hok
    · simp [resolveConfig, hpe] at hok
      rw [← hok]
      simp [hs, hn]

/-- Witness for C9 (amended): a malformed `DDG_MAX_RESULTS` fails
startup, while a malformed per-second cap resolves to NaN. -/
theorem configResolution_amended_witness :
    (∃ e, resolveConfig { ddgMaxResults := some "abc".toList } = .error e) ∧
    ({ rateLimit := { perSecond := none, perMonth := some 15000 },
       search := ⟨400, 20, .ofNat 3, .ofNat 150, false, false, .dense⟩ } :
        Config).rateLimit.perSecond = none :=
  ⟨(configResolution_amended { ddgMaxResults := some "abc".toList }).1 "abc".toList rfl rfl,
   (configResolution_amended { rateLimitPerSecond := some "abc".toList }).2.2.2.2.1
     "abc".toList _ rfl rfl rfl⟩


/- ===========================================================================
URL sanitization (C4): split/join lemmas, parse/print roundtrip, and
the cleanUrl specification.
=========================================================================== -/


theorem splitFirst_of_not_mem {c : Char} {l : List Char} (h : c ∉ l) :
    splitFirst c l = (l, none) := by
  induction l with
  | nil => rfl
  | cons a rest ih =>
    simp only [List.mem_cons, not_or] at h
    have hne : ¬(a = c) := fun heq => h.1 heq.symm
    simp [splitFirst, hne, ih h.2]

theorem splitFirst_append_cons {c : Char} {p r : List Char} (h : c ∉ p) :
    splitFirst c (p ++ c :: r) = (p, some r) := by
  induction p with
  | nil => simp [splitFirst]
  | cons a q ih =>
    simp only [List.mem_cons, not_or] at h
    have hne : ¬(a = c) := fun heq => h.1 heq.symm
    simp [splitFirst, hne, ih h.2]

theorem not_mem_splitFirst_fst (c : Char) (l : List Char) : c ∉ (splitFirst c l).1 := by
  induction l with
  | nil => simp [splitFirst]
  | cons a rest ih =>
    by_cases hc : a = c
    · simp [splitFirst, hc]
    · simp only [splitFirst, if_neg hc, List.mem_cons, not_or]
      exact ⟨fun heq => hc heq.symm, ih⟩

theorem mem_splitFirst_fst {c x : Char} {l : List Char} (h : x ∈ (splitFirst c l).1) :
    x ∈ l := by
  induction l with
  | nil => simp [splitFirst] at h
  | cons a rest ih =>
    by_cases hc : a = c
    · simp [splitFirst, hc] at h
    · simp only [splitFirst, if_neg hc, List.mem_cons] at h
      rcases h with h | h
      · exact h ▸ List.mem_cons_self _ _
      · exact List.mem_cons_of_mem _ (ih h)

theorem mem_splitFirst_snd {c x : Char} {l r : List Char}
    (h : (splitFirst c l).2 = some r) (hx : x ∈ r) : x ∈ l := by
  induction l with
  | nil => simp [splitFirst] at h
  | cons a rest ih =>
    by_cases hc : a = c
    · simp only [splitFirst, if_pos hc, Option.some.injEq] at h
      exact List.mem_cons_of_mem _ (h ▸ hx)
    · simp only [splitFirst, if_neg hc] at h
      exact List.mem_cons_of_mem _ (ih h)

theorem splitAll_ne_nil (c : Char) (l : List Char) : splitAll c l ≠ [] := by
  induction l with
  | nil => simp [splitAll]
  | cons a rest ih =>
    by_cases hc : a = c
    · simp [splitAll, hc]
    · simp only [splitAll, if_neg hc]
      rcases hsa : splitAll c rest with _ | ⟨p, ps⟩ <;> simp

theorem splitAll_not_mem (c : Char) (l : List Char) : ∀ p ∈ splitAll c l, c ∉ p := by
  induction l with
  | nil =>
    intro p hp
    simp only [splitAll, List.mem_singleton] at hp
    simp [hp]
  | cons a rest ih =>
    intro p hp
    by_cases hc : a = c
    · simp only [splitAll, if_pos hc, List.mem_cons] at hp
      rcases hp with h | h
      · simp [h]
      · exact ih p h
    · simp only [splitAll, if_neg hc] at hp
      rcases hsa : splitAll c rest with _ | ⟨q, ps⟩
      · exact absurd hsa (splitAll_ne_nil c rest)
      · rw [hsa] at hp
        rcases List.mem_cons.mp hp with h | h
        · subst h
          have hq : q ∈ splitAll c rest := by
            rw [hsa]; exact List.mem_cons_self _ _
          have hcq := ih q hq
          simp only [List.mem_cons, not_or]
          exact ⟨fun heq => hc heq.symm, hcq⟩
        · have : p ∈ splitAll c rest := by
            rw [hsa]; exact List.mem_cons_of_mem _ h
          exact ih p this

theorem splitAll_mem_mem {c x : Char} {l : List Char} :
    ∀ p ∈ splitAll c l, x ∈ p → x ∈ l := by
  induction l with
  | nil =>
    intro p hp hx
    simp only [splitAll, List.mem_singleton] at hp
    subst hp
    exact absurd hx (List.not_mem_nil x)
  | cons a rest ih =>
    intro p hp hx
    by_cases hc : a = c
    · simp only [splitAll, if_pos hc, List.mem_cons] at hp
      rcases hp with h | h
      · subst h; exact absurd hx (List.not_mem_nil x)
      · exact List.mem_cons_of_mem _ (ih p h hx)
    · simp only [splitAll, if_neg hc] at hp
      rcases hsa : splitAll c rest with _ | ⟨q, ps⟩
      · exact absurd hsa (splitAll_ne_nil c rest)
      · rw [hsa] at hp
        rcases List.mem_cons.mp hp with h | h
        · subst h
          rcases List.mem_cons.mp hx with h | h
          · exact h ▸ List.mem_cons_self _ _
          · have hq : q ∈ splitAll c rest := by
              rw [hsa]; exact List.mem_cons_self _ _
            exact List.mem_cons_of_mem _ (ih q hq h)
        · have hmem : p ∈ splitAll c rest := by
            rw [hsa]; exact List.mem_cons_of_mem _ h
          exact List.mem_cons_of_mem _ (ih p hmem hx)

theorem splitAll_of_not_mem {c : Char} {l : List Char} (h : c ∉ l) :
    splitAll c l = [l] := by
  induction l with
  | nil => rfl
  | cons a rest ih =>
    simp only [List.mem_cons, not_or] at h
    have hne : ¬(a = c) := fun heq => h.1 heq.symm
    simp [splitAll, hne, ih h.2]

theorem splitAll_append_cons {c : Char} {p r : List Char} (h : c ∉ p) :
    splitAll c (p ++ c :: r) = p :: splitAll c r := by
  induction p with
  | nil => simp [splitAll]
  | cons a q ih =>
    simp only [List.mem_cons, not_or] at h
    have hne : ¬(a = c) := fun heq => h.1 heq.symm
    simp only [List.cons_append, splitAll, if_neg hne, List.append_eq]
    rw [ih h.2]

theorem splitAll_joinSep {c : Char} :
    ∀ ps : List (List Char), ps ≠ [] → (∀ p ∈ ps, c ∉ p) →
      splitAll c (joinSep c ps) = ps
  | [], h, _ => absurd rfl h
  | [p], _, hp => by
    simp [joinSep, splitAll_of_not_mem (hp p (List.mem_singleton_self p))]
  | p :: q :: ps, _, hp => by
    have h1 : c ∉ p := hp p (List.mem_cons_self _ _)
    rw [joinSep, splitAll_append_cons h1,
      splitAll_joinSep (q :: ps) (by simp) (fun u hu => hp u (List.mem_cons_of_mem _ hu))]

theorem mem_joinSep {c x : Char} :
    ∀ {ps : List (List Char)}, x ∈ joinSep c ps → x = c ∨ ∃ p ∈ ps, x ∈ p
  | [], h => by simp [joinSep] at h
  | [p], h => by
    simp only [joinSep] at h
    exact Or.inr ⟨p, List.mem_singleton_self p, h⟩
  | p :: q :: ps, h => by
    simp only [joinSep, List.mem_append, List.mem_cons] at h
    rcases h with h | h | h
    · exact Or.inr ⟨p, List.mem_cons_self _ _, h⟩
    · exact Or.inl h
    · rcases mem_joinSep h with h | ⟨u, hu, hx⟩
      · exact Or.inl h
      · exact Or.inr ⟨u, List.mem_cons_of_mem _ hu, hx⟩


theorem parseQuery_printQuery (ps : List (List Char × List Char))
    (h : ∀ kv ∈ ps, '&' ∉ kv.1 ∧ '=' ∉ kv.1 ∧ '&' ∉ kv.2) :
    parseQuery (printQuery ps) = ps := by
  rcases ps with _ | ⟨kv0, rest⟩
  · rfl
  · unfold parseQuery printQuery
    rw [splitAll_joinSep ((kv0 :: rest).map (fun kv => kv.1 ++ '=' :: kv.2))
      (by simp) ?pieces]
    case pieces =>
      intro p hp
      rcases List.mem_map.mp hp with ⟨kv, hkv, rfl⟩
      obtain ⟨h1, _h2, h3⟩ := h kv hkv
      simp only [List.mem_append, List.mem_cons, not_or]
      exact ⟨h1, by decide, h3⟩
    rw [List.filter_eq_self.mpr ?nonempty]
    case nonempty =>
      intro p hp
      rcases List.mem_map.mp hp with ⟨kv, _hkv, rfl⟩
      simp
    rw [List.map_map]
    have hmap : ∀ kv ∈ kv0 :: rest,
        ((fun piece => ((splitFirst '=' piece).1, (splitFirst '=' piece).2.getD [])) ∘
          (fun kv => kv.1 ++ '=' :: kv.2)) kv = kv := by
      intro kv hkv
      obtain ⟨_h1, h2, _h3⟩ := h kv hkv
      simp [Function.comp, splitFirst_append_cons h2]
    rw [List.map_congr_left hmap]
    exact List.map_id' _

theorem foldl_deleteParam (keys : List (List Char)) (ps : List (List Char × List Char)) :
    keys.foldl deleteParam ps = ps.filter (fun kv => decide (kv.1 ∉ keys)) := by
  induction keys generalizing ps with
  | nil => simp
  | cons k ks ih =>
    simp only [List.foldl_cons]
    rw [ih]
    unfold deleteParam
    rw [List.filter_filter]
    apply List.filter_congr
    intro kv _
    rw [Bool.and_eq_decide]
    congr 1
    simp [and_comm]


/-- Wellformedness invariants every successfully parsed URL satisfies;
exactly what makes serialization invert parsing. -/
def URLRec.WF (r : URLRec) : Prop :=
  r.scheme ≠ [] ∧ r.scheme.all isLowerAlpha = true ∧
  r.host ≠ [] ∧ '/' ∉ r.host ∧ '?' ∉ r.host ∧ '#' ∉ r.host ∧
  (r.path = [] ∨ ∃ p, r.path = '/' :: p) ∧ '?' ∉ r.path ∧ '#' ∉ r.path ∧
  (∀ ps, r.query = some ps → ∀ kv ∈ ps,
    '&' ∉ kv.1 ∧ '=' ∉ kv.1 ∧ '#' ∉ kv.1 ∧ '&' ∉ kv.2 ∧ '#' ∉ kv.2)

theorem scheme_no_special {s : List Char} (h : s.all isLowerAlpha = true) :
    ':' ∉ s ∧ '?' ∉ s ∧ '#' ∉ s := by
  refine ⟨fun hm => ?_, fun hm => ?_, fun hm => ?_⟩ <;>
  · have hc := List.all_eq_true.mp h _ hm
    exact absurd hc (by decide)

theorem foldl_deleteParam_idem (ps : List (List Char × List Char)) :
    trackingParams.foldl deleteParam (trackingParams.foldl deleteParam ps) =
      trackingParams.foldl deleteParam ps := by
  rw [foldl_deleteParam, foldl_deleteParam, List.filter_filter]
  have heq : (fun kv : List Char × List Char =>
      decide (kv.1 ∉ trackingParams) && decide (kv.1 ∉ trackingParams)) =
      fun kv : List Char × List Char => decide (kv.1 ∉ trackingParams) := by
    funext kv
    exact Bool.and_self _
  rw [heq]

theorem deleteTracking_wf {r : URLRec} (h : r.WF) : (deleteTracking r).WF := by
  obtain ⟨h1, h2, h3, h4, h5, h6, h7, h8, h9, h10⟩ := h
  refine ⟨h1, h2, h3, h4, h5, h6, h7, h8, h9, ?_⟩
  intro ps hps kv hkv
  rcases hq : r.query with _ | qs
  · simp only [deleteTracking, hq] at hps
    exact Option.noConfusion hps
  · simp only [deleteTracking, hq] at hps
    by_cases he : trackingParams.foldl deleteParam qs = []
    · rw [if_pos he] at hps
      exact absurd hps (by simp)
    · rw [if_neg he, Option.some.injEq] at hps
      rw [← hps, foldl_deleteParam] at hkv
      exact h10 qs hq kv (List.mem_filter.mp hkv).1

theorem deleteTracking_idem (r : URLRec) :
    deleteTracking (deleteTracking r) = deleteTracking r := by
  obtain ⟨sch, ho, pa, qu, fr⟩ := r
  rcases qu with _ | ps
  · rfl
  · show deleteTracking
      { scheme := sch, host := ho, path := pa,
        query := if trackingParams.foldl deleteParam ps = [] then none
                 else some (trackingParams.foldl deleteParam ps),
        fragment := fr } = _
    by_cases he : trackingParams.foldl deleteParam ps = []
    · simp only [deleteTracking, if_pos he]
    · simp only [deleteTracking, if_neg he]
      rw [foldl_deleteParam_idem, if_neg he]




theorem splitFirst_fragment (X : List Char) (fr : Option (List Char)) (hX : '#' ∉ X) :
    splitFirst '#' (X ++ fragmentPart fr) = (X, fr) := by
  cases fr
  · simp [fragmentPart, splitFirst_of_not_mem hX]
  · exact splitFirst_append_cons hX

theorem splitFirst_queryPart (A : List Char) (qu : Option (List (List Char × List Char)))
    (hA : '?' ∉ A) :
    splitFirst '?' (A ++ queryPart qu) = (A, qu.map printQuery) := by
  cases qu
  · simp [queryPart, splitFirst_of_not_mem hA]
  · exact splitFirst_append_cons hA

theorem parseURL_assemble (s : List Char) (sch ho pa : List Char)
    (qu : Option (List (List Char × List Char))) (fr : Option (List Char))
    (h1 : sch ≠ []) (h2 : sch.all isLowerAlpha = true)
    (h3 : ho ≠ []) (h4 : '/' ∉ ho) (h5 : '?' ∉ ho)
    (h7 : pa = [] ∨ ∃ p, pa = '/' :: p) (h8 : '?' ∉ pa)
    (h10 : ∀ ps, qu = some ps → ∀ kv ∈ ps, '&' ∉ kv.1 ∧ '=' ∉ kv.1 ∧ '&' ∉ kv.2)
    (hsh : splitFirst '#' s =
      ((sch ++ ':' :: '/' :: '/' :: (ho ++ pa)) ++ queryPart qu, fr)) :
    parseURL s = some ⟨sch, ho, pa, qu, fr⟩ := by
  obtain ⟨hcolon, hqs, _hhs⟩ := scheme_no_special h2
  have hqA : '?' ∉ sch ++ ':' :: '/' :: '/' :: (ho ++ pa) := by
    intro hm
    rcases List.mem_append.mp hm with hm | hm
    · exact hqs hm
    · rcases List.mem_cons.mp hm with hm | hm
      · exact absurd hm (by decide)
      · rcases List.mem_cons.mp hm with hm | hm
        · exact absurd hm (by decide)
        · rcases List.mem_cons.mp hm with hm | hm
          · exact absurd hm (by decide)
          · rcases List.mem_append.mp hm with hm | hm
            · exact h5 hm
            · exact h8 hm
  have hq2 := splitFirst_queryPart (sch ++ ':' :: '/' :: '/' :: (ho ++ pa)) qu hqA
  have hcol := splitFirst_append_cons (p := sch) (r := '/' :: '/' :: (ho ++ pa)) hcolon
  simp only [parseURL, hsh, hq2, hcol]
  rw [if_neg (by simp [h1, h2])]
  rcases h7 with hpa | ⟨p, hpa⟩
  · subst hpa
    rw [List.append_nil, splitFirst_of_not_mem h4]
    rw [if_neg (by simp [h3])]
    rcases qu with _ | ps
    · simp
    · simp [parseQuery_printQuery ps (h10 ps rfl)]
  · subst hpa
    rw [splitFirst_append_cons h4]
    rw [if_neg (by simp [h3])]
    rcases qu with _ | ps
    · simp
    · simp [parseQuery_printQuery ps (h10 ps rfl)]


theorem parse_printURL {r : URLRec} (h : r.WF) : parseURL (printURL r) = some r := by
  obtain ⟨sch, ho, pa, qu, fr⟩ := r
  obtain ⟨h1, h2, h3, h4, h5, h6, h7, h8, h9, h10⟩ := h
  simp only at h1 h2 h3 h4 h5 h6 h7 h8 h9 h10
  obtain ⟨_hcolon, _hqs, hhs⟩ := scheme_no_special h2
  have hhashQ : '#' ∉ queryPart qu := by
    rcases qu with _ | ps
    · simp [queryPart]
    · simp only [queryPart, List.mem_cons, not_or]
      refine ⟨by decide, fun hm => ?_⟩
      rcases mem_joinSep hm with hc | ⟨piece, hpiece, hx⟩
      · exact absurd hc (by decide)
      · rcases List.mem_map.mp hpiece with ⟨kv, hkv, rfl⟩
        obtain ⟨_, _, hk3, _, hv2⟩ := h10 ps rfl kv hkv
        rcases List.mem_append.mp hx with hx | hx
        · exact hk3 hx
        · rcases List.mem_cons.mp hx with hx | hx
          · exact absurd hx (by decide)
          · exact hv2 hx
  have hhashA : '#' ∉ sch ++ ':' :: '/' :: '/' :: (ho ++ pa) := by
    intro hm
    rcases List.mem_append.mp hm with hm | hm
    · exact hhs hm
    · rcases List.mem_cons.mp hm with hm | hm
      · exact absurd hm (by decide)
      · rcases List.mem_cons.mp hm with hm | hm
        · exact absurd hm (by decide)
        · rcases List.mem_cons.mp hm with hm | hm
          · exact absurd hm (by decide)
          · rcases List.mem_append.mp hm with hm | hm
            · exact h6 hm
            · exact h9 hm
  apply parseURL_assemble _ sch ho pa qu fr h1 h2 h3 h4 h5 h7 h8
    (fun ps hps kv hkv =>
      ⟨(h10 ps hps kv hkv).1, (h10 ps hps kv hkv).2.1, (h10 ps hps kv hkv).2.2.2.1⟩)
  have hre : printURL ⟨sch, ho, pa, qu, fr⟩ =
      ((sch ++ ':' :: '/' :: '/' :: (ho ++ pa)) ++ queryPart qu) ++ fragmentPart fr := by
    simp [printURL, List.append_assoc]
  rw [hre]
  exact splitFirst_fragment _ fr (fun hm =>
    (List.mem_append.mp hm).elim (fun hm => hhashA hm) (fun hm => hhashQ hm))


theorem parseURL_wf {s : List Char} {r : URLRec} (h : parseURL s = some r) : r.WF := by
  rcases hbh : splitFirst '#' s with ⟨bh1, bh2⟩
  rcases hbq : splitFirst '?' bh1 with ⟨bq1, bq2⟩
  rcases hbs : splitFirst ':' bq1 with ⟨sc1, sc2⟩
  unfold parseURL at h
  rw [hbh] at h
  simp only at h
  rw [hbq] at h
  simp only at h
  rw [hbs] at h
  simp only at h
  -- facts about the split pieces
  have hbh1_nohash : '#' ∉ bh1 := by
    have := not_mem_splitFirst_fst '#' s
    rw [hbh] at this
    exact this
  have hbq1_noq : '?' ∉ bq1 := by
    have := not_mem_splitFirst_fst '?' bh1
    rw [hbq] at this
    exact this
  have hmem_bq1_bh1 : ∀ x, x ∈ bq1 → x ∈ bh1 := by
    intro x hx
    exact mem_splitFirst_fst (c := '?') (by rw [hbq]; exact hx)
  have hmem_bq2_bh1 : ∀ qs, bq2 = some qs → ∀ x, x ∈ qs → x ∈ bh1 := by
    intro qs hqs x hx
    exact mem_splitFirst_snd (c := '?') (l := bh1) (by rw [hbq]; exact hqs) hx
  rcases sc2 with _ | r1
  · simp only at h
    exact Option.noConfusion h
  simp only at h
  have hmem_r1_bq1 : ∀ x, x ∈ r1 → x ∈ bq1 := by
    intro x hx
    exact mem_splitFirst_snd (c := ':') (l := bq1) (by rw [hbs]) hx
  split_ifs at h with hcond
  split at h
  swap
  · exact Option.noConfusion h
  rename_i hostpath
  have hmem_hp_bq1 : ∀ x, x ∈ hostpath → x ∈ bq1 := fun x hx =>
    hmem_r1_bq1 x (List.mem_cons_of_mem _ (List.mem_cons_of_mem _ hx))
  rcases hhp : splitFirst '/' hostpath with ⟨hp1, hp2⟩
  rw [hhp] at h
  simp only at h
  split_ifs at h with hhost
  rw [Option.some.injEq] at h
  subst h
  -- scheme facts from the guard
  rw [Bool.or_eq_true, not_or, Bool.not_eq_true', Bool.not_eq_false] at hcond
  obtain ⟨hs_ne, hs_alpha⟩ := hcond
  rw [decide_eq_true_eq] at hs_ne
  -- host facts
  have hhost_slash : '/' ∉ hp1 := by
    have := not_mem_splitFirst_fst '/' hostpath
    rw [hhp] at this
    exact this
  have hmem_hp1 : ∀ x, x ∈ hp1 → x ∈ hostpath := by
    intro x hx
    exact mem_splitFirst_fst (c := '/') (by rw [hhp]; exact hx)
  have hmem_hp2 : ∀ p, hp2 = some p → ∀ x, x ∈ p → x ∈ hostpath := by
    intro p hp x hx
    exact mem_splitFirst_snd (c := '/') (l := hostpath) (by rw [hhp]; exact hp) hx
  refine ⟨hs_ne, hs_alpha, hhost, hhost_slash, ?_, ?_, ?_, ?_, ?_, ?_⟩
  · exact fun hm => hbq1_noq (hmem_hp_bq1 _ (hmem_hp1 _ hm))
  · exact fun hm => hbh1_nohash (hmem_bq1_bh1 _ (hmem_hp_bq1 _ (hmem_hp1 _ hm)))
  · rcases hp2 with _ | p
    · exact Or.inl rfl
    · exact Or.inr ⟨p, rfl⟩
  · rcases hp2 with _ | p
    · simp
    · simp only [List.mem_cons, not_or]
      refine ⟨by decide, fun hm => ?_⟩
      exact hbq1_noq (hmem_hp_bq1 _ (hmem_hp2 p rfl _ hm))
  · rcases hp2 with _ | p
    · simp
    · simp only [List.mem_cons, not_or]
      refine ⟨by decide, fun hm => ?_⟩
      exact hbh1_nohash (hmem_bq1_bh1 _ (hmem_hp_bq1 _ (hmem_hp2 p rfl _ hm)))
  · -- query pairs
    intro ps hps kv hkv
    simp only at hps
    rcases hbq2 : bq2 with _ | qs
    · rw [hbq2] at hps
      exact Option.noConfusion hps
    · rw [hbq2] at hps
      replace hps : parseQuery qs = ps := by simpa using hps
      subst hps
      unfold parseQuery at hkv
      rcases List.mem_map.mp hkv with ⟨piece, hpiece, rfl⟩
      have hpiece_sa : piece ∈ splitAll '&' qs := (List.mem_filter.mp hpiece).1
      have hamp : '&' ∉ piece := splitAll_not_mem '&' qs piece hpiece_sa
      have hmem_piece : ∀ x, x ∈ piece → x ∈ qs := fun x hx =>
        splitAll_mem_mem piece hpiece_sa hx
      have hhash_piece : '#' ∉ piece := fun hm =>
        hbh1_nohash (hmem_bq2_bh1 qs hbq2 _ (hmem_piece _ hm))
      have hmem_k : ∀ x, x ∈ (splitFirst '=' piece).1 → x ∈ piece := fun x hx =>
        mem_splitFirst_fst hx
      refine ⟨fun hm => hamp (hmem_k _ hm), not_mem_splitFirst_fst '=' piece,
        fun hm => hhash_piece (hmem_k _ hm), ?_, ?_⟩
      · rcases hv : (splitFirst '=' piece).2 with _ | v
        · simp [hv]
        · simp only [hv, Option.getD_some]
          exact fun hm => hamp (mem_splitFirst_snd hv hm)
      · rcases hv : (splitFirst '=' piece).2 with _ | v
        · simp [hv]
        · simp only [hv, Option.getD_some]
          exact fun hm => hhash_piece (mem_splitFirst_snd hv hm)


/-- C4: URL sanitization removes exactly the fixed tracking-parameter
set, preserving the order of the remaining parameters (the cleaned
URL parses back to the original with its query filtered); a string that
fails to parse is returned unchanged; cleaning is idempotent on every
string; and the specification's example holds. -/
theorem cleanUrl_spec :
    (∀ u r, parseURL u = some r →
      parseURL (cleanUrl u) = some (deleteTracking r) ∧
      ∀ ps, r.query = some ps →
        (deleteTracking r).query.getD [] =
          ps.filter (fun kv => decide (kv.1 ∉ trackingParams))) ∧
    (∀ u, parseURL u = none → cleanUrl u = u) ∧
    (∀ u, cleanUrl (cleanUrl u) = cleanUrl u) ∧
    cleanUrl "https://x.com/a?utm_source=y&id=1".toList = "https://x.com/a?id=1".toList := by
  have hparse : ∀ u r, parseURL u = some r →
      parseURL (cleanUrl u) = some (deleteTracking r) := by
    intro u r hu
    have hwf' := deleteTracking_wf (parseURL_wf hu)
    simp only [cleanUrl, hu]
    exact parse_printURL hwf'
  refine ⟨?_, ?_, ?_, ?_⟩
  · intro u r hu
    refine ⟨hparse u r hu, ?_⟩
    intro ps hps
    simp only [deleteTracking, hps]
    rw [foldl_deleteParam]
    simp only [decide_not]
    by_cases he : ps.filter (fun kv => !decide (kv.1 ∈ trackingParams)) = []
    · rw [if_pos he, Option.getD_none, he]
    · rw [if_neg he, Option.getD_some]
  · intro u hu
    simp [cleanUrl, hu]
  · intro u
    rcases hu : parseURL u with _ | r
    · simp [cleanUrl, hu]
    · have h1 : cleanUrl u = printURL (deleteTracking r) := by
        simp [cleanUrl, hu]
      rw [h1]
      have h3 : parseURL (printURL (deleteTracking r)) = some (deleteTracking r) :=
        parse_printURL (deleteTracking_wf (parseURL_wf hu))
      simp only [cleanUrl, h3, deleteTracking_idem]
  · decide

/-- The parsed form of the specification's example URL. -/
def exampleURLRec : URLRec :=
  { scheme := "https".toList
    host := "x.com".toList
    path := "/a".toList
    query := some [("utm_source".toList, "y".toList), ("id".toList, "1".toList)]
    fragment := none }

/-- Witness for C4: the example URL's cleaned form parses to the
filtered record, and an unparseable string passes through unchanged. -/
theorem cleanUrl_spec_witness :
    parseURL (cleanUrl "https://x.com/a?utm_source=y&id=1".toList) =
      some (deleteTracking exampleURLRec) ∧
    cleanUrl "nota url".toList = "nota url".toList :=
  ⟨(cleanUrl_spec.1 "https://x.com/a?utm_source=y&id=1".toList exampleURLRec (by decide)).1,
   cleanUrl_spec.2.1 "nota url".toList (by decide)⟩


end DDGServer
